import Mathlib

/-!
# F1FUN leaderboard: points configuration and standings aggregation

A shallow embedding of the computations of `src/server.js`:

* `pointsForPlace`, `setPointsArray` and `getPointsArray` over the settings table;
* the aggregation loop and the standings of `GET /api/leaderboard`;
* the projections of `GET /api/driver/:id` and `GET /api/driver/:id/last-team`;
* the middleware `adminAuth` with `parseBasicAuth`.

Modelling conventions.

* A finite JavaScript number is a fraction `num / den`.  The conversion of a
  string to a number rounds to binary64 (`roundFraction`), and the additions
  `+=` of the aggregation loop round their integer sums to binary64 (`jsAdd`).
  The sign of zero, and running sums beyond the binary64 range (which become
  `Infinity`), are outside the model.
* A JavaScript `Map` is an association list in insertion order; a `Set` is a
  duplicate-free list in insertion order.
* A `Row` is one row of the relation the `SELECT`s range over
  (`race_results` joined with the display names).  `WHERE`, `ORDER BY` and
  `LIMIT` are modelled as filter, stable sort and `take` over a list of rows.
* `Array.prototype.sort` with a consistent comparator is a stable sort.
* The settings table may be unavailable; a stored text is identified with what
  `JSON.parse` makes of it.  The base64 decoding of a token is a parameter.
-/

namespace F1FUN

/-! ## JavaScript numbers and values -/

/-- A finite number, the exact fraction `num / den` with a positive denominator. -/
structure Fraction where
  num : Int
  den : Nat
  den_pos : 0 < den
deriving DecidableEq

/-- The integer `n` as a fraction. -/
def Fraction.ofInt (n : Int) : Fraction := ⟨n, 1, Nat.one_pos⟩

/-- A JavaScript number: finite, `NaN`, `Infinity` or `-Infinity`. -/
inductive JSNum where
  | fin (q : Fraction)
  | nan
  | posInf
  | negInf
deriving DecidableEq

/-- The JavaScript number of an integer. -/
def JSNum.ofInt (n : Int) : JSNum := .fin (Fraction.ofInt n)

/-- Unary minus on JavaScript numbers. -/
def JSNum.neg : JSNum → JSNum
  | .fin q => .fin ⟨-q.num, q.den, q.den_pos⟩
  | .nan => .nan
  | .posInf => .negInf
  | .negInf => .posInf

/-- A JavaScript value as it reaches the server: a primitive, or an object or
array carried by the string `prim` that its conversion to a primitive yields
(the comma-joined elements of an array, `[object Object]` for a plain object). -/
inductive JSVal where
  | undefined
  | null
  | bool (b : Bool)
  | num (n : JSNum)
  | str (s : String)
  | obj (prim : String)
deriving DecidableEq

/-! ## Rounding to binary64 -/

/-- The number of low bits to drop from `a` so that at most 53 bits remain
(`fuel` bounds the search; `a` itself is always enough). -/
def excessBits : Nat → Nat → Nat
  | 0, _ => 0
  | fuel + 1, a => if a < 2 ^ 53 then 0 else excessBits fuel (a / 2) + 1

/-- The least `k ≤ fuel` with `2 ^ 52 ≤ num * 2 ^ k / den`, or `fuel` when there
is none. -/
def scaleUp : Nat → Nat → Nat → Nat
  | 0, _, _ => 0
  | fuel + 1, num, den => if 2 ^ 52 ≤ num / den then 0 else scaleUp fuel (2 * num) den + 1

/-- The integer nearest to `num / den`, a tie going to the even one. -/
def roundHalfEven (num den : Nat) : Nat :=
  let q := num / den
  let r := num % den
  if den < 2 * r ∨ (2 * r = den ∧ q % 2 = 1) then q + 1 else q

/-- The binary64 number nearest to the non-negative fraction `num / den`, ties
to even: 53 significant bits, steps of `2 ^ -1074` near zero, `Infinity` from
`2 ^ 1024` on. -/
def roundFraction (num den : Nat) : JSNum :=
  if num = 0 then .ofInt 0
  else if 2 ^ 53 ≤ num / den then
    let s := excessBits (num / den) (num / den)
    let m := roundHalfEven num (den * 2 ^ s)
    if 2 ^ 1024 ≤ m * 2 ^ s then .posInf else .ofInt (Int.ofNat (m * 2 ^ s))
  else
    let k := scaleUp 1074 num den
    let m := roundHalfEven (num * 2 ^ k) den
    if m % 2 ^ k = 0 then .ofInt (Int.ofNat (m / 2 ^ k))
    else .fin ⟨Int.ofNat m, 2 ^ k, Nat.pos_pow_of_pos _ (by decide)⟩

/-- The binary64 number nearest to an integer too small to overflow, ties to
even: the rounding of an addition of two integers. -/
def roundBinary64 (n : Int) : Int :=
  let a := n.natAbs
  let s := excessBits a a
  let m := roundHalfEven a (2 ^ s)
  if n < 0 then - Int.ofNat (m * 2 ^ s) else Int.ofNat (m * 2 ^ s)

/-- The addition `a + b` of two integer-valued numbers, rounded to binary64
(sums beyond the binary64 range, which become `Infinity`, are not modelled). -/
def jsAdd (a b : Int) : Int := roundBinary64 (a + b)

/-- White space and line terminators stripped by the string-to-number conversion. -/
def isStrWhiteSpace (c : Char) : Bool :=
  let n := c.toNat
  n == 0x9 || n == 0xA || n == 0xB || n == 0xC || n == 0xD || n == 0x20 || n == 0xA0
    || n == 0x1680 || (0x2000 ≤ n && n ≤ 0x200A) || n == 0x2028 || n == 0x2029
    || n == 0x202F || n == 0x205F || n == 0x3000 || n == 0xFEFF

/-- Strip leading and trailing white space. -/
def trimWhiteSpace (cs : List Char) : List Char :=
  ((cs.dropWhile isStrWhiteSpace).reverse.dropWhile isStrWhiteSpace).reverse

/-- The value of a digit character in the given radix, if it is one. -/
def digitValue (radix : Nat) (c : Char) : Option Nat :=
  let n := c.toNat
  let v : Option Nat :=
    if 48 ≤ n && n ≤ 57 then some (n - 48)
    else if 97 ≤ n && n ≤ 102 then some (n - 87)
    else if 65 ≤ n && n ≤ 70 then some (n - 55)
    else none
  v.bind fun d => if d < radix then some d else none

/-- The natural number written by a non-empty string of digits in the given
radix; `none` when the string is empty or holds another character. -/
def digitsValue (radix : Nat) (cs : List Char) : Option Nat :=
  if cs.isEmpty then none
  else (cs.mapM (digitValue radix)).map fun ds => ds.foldl (fun acc d => radix * acc + d) 0

/-- The exponent part of a decimal literal: nothing, or `e`/`E`, an optional sign
and at least one digit. -/
def parseExponent : List Char → Option Int
  | [] => some 0
  | c :: rest =>
    if c == 'e' || c == 'E' then
      match rest with
      | '+' :: ds => (digitsValue 10 ds).map Int.ofNat
      | '-' :: ds => (digitsValue 10 ds).map fun n => - Int.ofNat n
      | ds => (digitsValue 10 ds).map Int.ofNat
    else none

/-- An unsigned decimal literal: `Infinity`, or digits with an optional fraction
and exponent, at least one digit before or after the point; its value
`m * 10 ^ k` is rounded to binary64 (from `10 ^ 309` on it is `Infinity`, and a
value below `10 ^ -324` is `0`, without computing the power). -/
def parseUnsignedDecimal (cs : List Char) : JSNum :=
  if cs = "Infinity".data then .posInf
  else
    let ip := cs.takeWhile Char.isDigit
    let rest := cs.dropWhile Char.isDigit
    let fp := match rest with
      | '.' :: r => r.takeWhile Char.isDigit
      | _ => []
    let tail := match rest with
      | '.' :: r => r.dropWhile Char.isDigit
      | r => r
    match digitsValue 10 (ip ++ fp), parseExponent tail with
    | some m, some e =>
      let k : Int := e - Int.ofNat fp.length
      if 0 ≤ k then
        if m = 0 then .ofInt 0
        else if 309 ≤ k then .posInf
        else roundFraction (m * 10 ^ k.toNat) 1
      else if (ip ++ fp).length + 324 ≤ (-k).toNat then .ofInt 0
      else roundFraction m (10 ^ (-k).toNat)
    | _, _ => .nan

/-- The string-to-number conversion: trimmed; the empty string is `0`; a
radix-prefixed integer, or an optionally signed decimal literal, rounded to
binary64; else `NaN`. -/
def stringToNumber (s : String) : JSNum :=
  match trimWhiteSpace s.data with
  | [] => .ofInt 0
  | '0' :: 'x' :: ds | '0' :: 'X' :: ds =>
    ((digitsValue 16 ds).map fun n => roundFraction n 1).getD .nan
  | '0' :: 'o' :: ds | '0' :: 'O' :: ds =>
    ((digitsValue 8 ds).map fun n => roundFraction n 1).getD .nan
  | '0' :: 'b' :: ds | '0' :: 'B' :: ds =>
    ((digitsValue 2 ds).map fun n => roundFraction n 1).getD .nan
  | '+' :: cs => parseUnsignedDecimal cs
  | '-' :: cs => (parseUnsignedDecimal cs).neg
  | cs => parseUnsignedDecimal cs

/-- The conversion `Number(v)`. -/
def Number : JSVal → JSNum
  | .undefined => .nan
  | .null => .ofInt 0
  | .bool b => .ofInt (if b then 1 else 0)
  | .num n => n
  | .str s => stringToNumber s
  | .obj prim => stringToNumber prim

/-- The test `Number.isFinite(n)`. -/
def Number.isFinite : JSNum → Bool
  | .fin _ => true
  | _ => false

/-- The comparison `n < k` of a number with an integer constant; false on `NaN`. -/
def JSNum.ltInt : JSNum → Int → Bool
  | .fin q, k => decide (q.num < k * q.den)
  | .negInf, _ => true
  | _, _ => false

/-- The comparison `n >= k` of a number with an integer constant; false on `NaN`. -/
def JSNum.geInt : JSNum → Int → Bool
  | .fin q, k => decide (k * q.den ≤ q.num)
  | .posInf, _ => true
  | _, _ => false

/-- The function `Math.trunc` on a finite number: the integer part, toward zero. -/
def Math.trunc (q : Fraction) : Int := q.num.tdiv q.den

/-! ## Points system -/

/-- The constant `DEFAULT_POINTS`. -/
def DEFAULT_POINTS : List Int := [25, 18, 15, 12, 10, 8, 6, 4, 2, 1]

/-- The function `pointsForPlace(place, pointsArr)`. -/
def pointsForPlace (place : JSVal) (pointsArr : List Int) : Int :=
  let p := Number place
  if !Number.isFinite p || p.ltInt 1 then 0
  else
    match p with
    | .fin q =>
      let idx := Math.trunc q - 1
      if 0 ≤ idx ∧ idx < pointsArr.length then pointsArr.getD idx.toNat 0 else 0
    | _ => 0

/-- The text of a settings value, identified with what `JSON.parse` makes of
it: a syntax error, a value that is not an array, or an array of elements. -/
inductive JsonText where
  | invalid
  | nonArray
  | array (elems : List JSVal)
deriving DecidableEq

/-- The text `JSON.stringify(cleaned)` of an array of integers. -/
def JSON.stringify (cleaned : List Int) : JsonText :=
  .array (cleaned.map fun n => JSVal.num (JSNum.ofInt n))

/-! ## JavaScript `Map` and `Set` -/

/-- A `Map`: keys with their values, in insertion order. -/
abbrev JSMap (κ : Type) (ν : Type) := List (κ × ν)

/-- The method `m.get(k)`; `none` is `undefined`. -/
def JSMap.get {κ ν : Type} [DecidableEq κ] : JSMap κ ν → κ → Option ν
  | [], _ => none
  | (k1, v) :: rest, k => if k1 = k then some v else JSMap.get rest k

/-- The method `m.has(k)`. -/
def JSMap.has {κ ν : Type} [DecidableEq κ] (m : JSMap κ ν) (k : κ) : Bool :=
  (JSMap.get m k).isSome

/-- The method `m.set(k, v)`: an existing key keeps its position, a new key goes last. -/
def JSMap.set {κ ν : Type} [DecidableEq κ] : JSMap κ ν → κ → ν → JSMap κ ν
  | [], k, v => [(k, v)]
  | (k1, v1) :: rest, k, v =>
    if k1 = k then (k1, v) :: rest else (k1, v1) :: JSMap.set rest k v

/-- The iterator `m.values()`. -/
def JSMap.values {κ ν : Type} (m : JSMap κ ν) : List ν := m.map Prod.snd

/-- A `Set` of driver ids, in insertion order. -/
abbrev JSSet := List Int

/-- The method `s.add(x)`. -/
def JSSet.add (s : JSSet) (x : Int) : JSSet := if x ∈ s then s else s ++ [x]

/-- The property `s.size`. -/
def JSSet.size (s : JSSet) : Nat := s.length

/-- The method `Array.prototype.sort(cmp)` for a consistent comparator: a stable
sort that puts `a` before `b` when `cmp a b ≤ 0`. -/
def jsSort {α : Type} (cmp : α → α → Int) (l : List α) : List α :=
  l.insertionSort (fun a b => cmp a b ≤ 0)

/-! ## Result rows -/

/-- One row of `race_results` joined with the driver, team and map names
(the columns of the leaderboard `SELECT`). -/
structure Row where
  result_id : Int
  driver_id : Int
  driver_name : String
  team_id : Option Int
  team_name : Option String
  map_id : Int
  map_name : String
  place : JSVal
  time_ms : Option Int
deriving DecidableEq

/-- The clause `ORDER BY r.id ASC`. -/
def orderByIdAsc (rows : List Row) : List Row :=
  rows.insertionSort (fun a b => a.result_id ≤ b.result_id)

/-- The clause `ORDER BY r.id DESC`. -/
def orderByIdDesc (rows : List Row) : List Row :=
  rows.insertionSort (fun a b => b.result_id ≤ a.result_id)

/-- The truthiness test `if (row.team_id)`: `null` and `0` are falsy. -/
def truthy : Option Int → Bool
  | some t => t != 0
  | none => false

/-! ## The aggregation loop of `GET /api/leaderboard` -/

/-- An entry `{ name, count }` of a driver's `teamHits` map. -/
structure TeamHit where
  name : Option String
  count : Nat
deriving DecidableEq

/-- The per-driver record of the `drivers` map. -/
structure DriverAgg where
  id : Int
  name : String
  totalPoints : Int
  resultsCount : Nat
  teamHits : JSMap Int TeamHit
deriving DecidableEq

/-- The per-team record of the `teams` map. -/
structure TeamAgg where
  id : Int
  name : Option String
  totalPoints : Int
  drivers : JSSet
deriving DecidableEq

/-- The two maps the loop fills. -/
structure AggState where
  drivers : JSMap Int DriverAgg
  teams : JSMap Int TeamAgg
deriving DecidableEq

/-- The `teamHits` update of one row: a new team gets count 1, a known one is
incremented. -/
def hitTeam (hits : JSMap Int TeamHit) (tid : Int) (team_name : Option String) :
    JSMap Int TeamHit :=
  match JSMap.get hits tid with
  | none => JSMap.set hits tid { name := team_name, count := 1 }
  | some hit => JSMap.set hits tid { hit with count := hit.count + 1 }

/-- The body of `for (const row of rows)`. -/
def aggregateRow (points : List Int) (st : AggState) (row : Row) : AggState :=
  let pts := pointsForPlace row.place points
  let drivers :=
    if !JSMap.has st.drivers row.driver_id then
      JSMap.set st.drivers row.driver_id
        { id := row.driver_id, name := row.driver_name, totalPoints := 0,
          resultsCount := 0, teamHits := [] }
    else st.drivers
  match JSMap.get drivers row.driver_id with
  | none => st
  | some d0 =>
    let d := { d0 with totalPoints := jsAdd d0.totalPoints pts, resultsCount := d0.resultsCount + 1 }
    match row.team_id with
    | some tid =>
      if truthy row.team_id then
        let d1 := { d with teamHits := hitTeam d.teamHits tid row.team_name }
        let teams :=
          if !JSMap.has st.teams tid then
            JSMap.set st.teams tid
              { id := tid, name := row.team_name, totalPoints := 0, drivers := [] }
          else st.teams
        match JSMap.get teams tid with
        | none => st
        | some t =>
          { drivers := JSMap.set drivers row.driver_id d1
            teams := JSMap.set teams tid
              { t with totalPoints := jsAdd t.totalPoints pts
                       drivers := JSSet.add t.drivers row.driver_id } }
      else { drivers := JSMap.set drivers row.driver_id d, teams := st.teams }
    | none => { drivers := JSMap.set drivers row.driver_id d, teams := st.teams }

/-- The whole loop, from two empty maps. -/
def aggregate (points : List Int) (rows : List Row) : AggState :=
  rows.foldl (aggregateRow points) { drivers := [], teams := [] }

/-! ## Standings -/

/-- The locals `bestTeamId`, `bestTeamName`, `bestCount`. -/
structure Best where
  bestTeamId : Option Int
  bestTeamName : Option String
  bestCount : Nat
deriving DecidableEq

/-- The loop `for (const [tid, v] of d.teamHits.entries())`. -/
def bestTeam (teamHits : JSMap Int TeamHit) : Best :=
  teamHits.foldl
    (fun best e =>
      if e.2.count > best.bestCount then
        { bestTeamId := some e.1, bestTeamName := e.2.name, bestCount := e.2.count }
      else best)
    { bestTeamId := none, bestTeamName := none, bestCount := 0 }

/-- An entry of `leaderboard`. -/
structure DriverStanding where
  id : Int
  name : String
  teamId : Option Int
  teamName : Option String
  totalPoints : Int
  resultsCount : Nat
deriving DecidableEq

/-- The callback of `.map(d => ...)` over the driver records. -/
def driverStanding (d : DriverAgg) : DriverStanding :=
  let best := bestTeam d.teamHits
  { id := d.id, name := d.name, teamId := best.bestTeamId, teamName := best.bestTeamName,
    totalPoints := d.totalPoints, resultsCount := d.resultsCount }

/-- The comparator of the leaderboard sort. -/
def compareDrivers (a b : DriverStanding) : Int :=
  if b.totalPoints ≠ a.totalPoints then b.totalPoints - a.totalPoints
  else (b.resultsCount : Int) - (a.resultsCount : Int)

/-- An entry of `teamboard`. -/
structure TeamStanding where
  id : Int
  name : Option String
  totalPoints : Int
  driversCount : Nat
deriving DecidableEq

/-- The callback of `.map(t => ...)` over the team records. -/
def teamStanding (t : TeamAgg) : TeamStanding :=
  { id := t.id, name := t.name, totalPoints := t.totalPoints,
    driversCount := JSSet.size t.drivers }

/-- The comparator of the teamboard sort. -/
def compareTeams (a b : TeamStanding) : Int := b.totalPoints - a.totalPoints

/-- The body of the response of `GET /api/leaderboard`. -/
structure Leaderboard where
  points : List Int
  leaderboard : List DriverStanding
  teamboard : List TeamStanding
deriving DecidableEq

/-- The computation of `GET /api/leaderboard` on the rows its query returned. -/
def computeLeaderboard (rows : List Row) (points : List Int) : Leaderboard :=
  let st := aggregate points rows
  { points := points
    leaderboard := jsSort compareDrivers ((JSMap.values st.drivers).map driverStanding)
    teamboard := jsSort compareTeams ((JSMap.values st.teams).map teamStanding) }

/-- The handler `GET /api/leaderboard` over the joined table: all rows, by ascending id. -/
def getLeaderboard (table : List Row) (points : List Int) : Leaderboard :=
  computeLeaderboard (orderByIdAsc table) points

/-! ## Driver drill-down -/

/-- An entry of `details`. -/
structure DriverDetail where
  id : Int
  map : String
  team : Option String
  place : JSVal
  time_ms : Option Int
  points : Int
deriving DecidableEq

/-- The query of `GET /api/driver/:id`: the rows of the driver, by ascending id. -/
def driverRowsQuery (table : List Row) (driverId : Int) : List Row :=
  orderByIdAsc (table.filter fun r => r.driver_id = driverId)

/-- The `details` of `GET /api/driver/:id`. -/
def driverDetails (driverId : Int) (table : List Row) (points : List Int) :
    List DriverDetail :=
  (driverRowsQuery table driverId).map fun r =>
    { id := r.result_id, map := r.map_name, team := r.team_name, place := r.place,
      time_ms := r.time_ms, points := pointsForPlace r.place points }

/-- The object answered by `GET /api/driver/:id/last-team`. -/
structure LastTeam where
  resultId : Int
  teamId : Option Int
  teamName : Option String
deriving DecidableEq

/-- The query of `GET /api/driver/:id/last-team`: the rows of the driver by
descending id, `LIMIT 1`. -/
def lastTeamQuery (table : List Row) (driverId : Int) : List Row :=
  (orderByIdDesc (table.filter fun r => r.driver_id = driverId)).take 1

/-- The answer of `GET /api/driver/:id/last-team`; `none` is `null`. -/
def lastTeam (driverId : Int) (table : List Row) : Option LastTeam :=
  match lastTeamQuery table driverId with
  | [] => none
  | r :: _ => some { resultId := r.result_id, teamId := r.team_id, teamName := r.team_name }

/-! ## Points settings -/

/-- The table `app_settings`: `none` when it cannot be queried (the table is
missing or the connection fails), else its rows, key to value. -/
abbrev SettingsStore := Option (JSMap String JsonText)

/-- How a call can fail: a thrown `Error(msg)`, or a rejected database query. -/
inductive Failure where
  | error (msg : String)
  | queryFailed
deriving DecidableEq

/-- The cleaning pipeline `.map(Number).filter(...).map(n => Math.trunc(n))`;
every number that passes the filter is finite, so the last stage drops nothing. -/
def cleanPoints (pointsArr : List JSVal) : List Int :=
  ((pointsArr.map Number).filter fun n => Number.isFinite n && n.geInt 0).filterMap
    fun n => match n with
      | .fin q => some (Math.trunc q)
      | _ => none

/-- The statement `INSERT ... ON DUPLICATE KEY UPDATE` on `points_json`: the
table afterwards, or `none` when the query is rejected. -/
def upsertPoints (store : SettingsStore) (json : JsonText) :
    Option (JSMap String JsonText) :=
  store.map fun t => JSMap.set t "points_json" json

/-- The function `setPointsArray(pointsArr)`: its outcome, and the store afterwards. -/
def setPointsArray (pointsArr : List JSVal) (store : SettingsStore) :
    Except Failure (List Int) × SettingsStore :=
  let cleaned := cleanPoints pointsArr
  if cleaned.length = 0 then (.error (.error "Points array is empty"), store)
  else
    let json := JSON.stringify cleaned
    match upsertPoints store json with
    | none => (.error .queryFailed, store)
    | some table => (.ok cleaned, some table)

/-- The function `getPointsArray()`: a rejected query, a missing row, a text
that does not parse, a value that is not an array and an array that cleans to
nothing all give `DEFAULT_POINTS`. -/
def getPointsArray (store : SettingsStore) : List Int :=
  match store with
  | none => DEFAULT_POINTS
  | some table =>
    match JSMap.get table "points_json" with
    | none => DEFAULT_POINTS
    | some .invalid => DEFAULT_POINTS
    | some .nonArray => DEFAULT_POINTS
    | some (.array parsed) =>
      let cleaned := cleanPoints parsed
      if cleaned.length ≠ 0 then cleaned else DEFAULT_POINTS

/-! ## Basic Auth -/

/-- The method `s.split(sep)` for a one-character separator, on character lists. -/
def splitChars (sep : Char) : List Char → List (List Char)
  | [] => [[]]
  | c :: cs =>
    if c = sep then [] :: splitChars sep cs
    else
      match splitChars sep cs with
      | [] => [[c]]
      | seg :: segs => (c :: seg) :: segs

/-- The object `{ user, pass }`. -/
structure Creds where
  user : String
  pass : String
deriving DecidableEq

/-- The function `parseBasicAuth(req)` on the `Authorization` header of the
request (`none` when absent); `decode` is the conversion
`Buffer.from(token, "base64").toString("utf8")`. -/
def parseBasicAuth (decode : String → String) (authorization : Option String) :
    Option Creds :=
  let h := authorization.getD ""
  match splitChars ' ' h.data with
  | type :: token :: _ =>
    if type ≠ "Basic".data ∨ token = [] then none
    else
      let decoded := (decode (String.mk token)).data
      match decoded.dropWhile (fun c => c ≠ ':') with
      | [] => none
      | _ :: pass =>
        some { user := String.mk (decoded.takeWhile fun c => c ≠ ':'), pass := String.mk pass }
  | _ => none

/-- What the middleware does with a request. -/
inductive AuthOutcome where
  | next
  | status500
  | status401
deriving DecidableEq

/-- The middleware `adminAuth` under the environment values `ADMIN_USER` and
`ADMIN_PASS` (`none` when unset). -/
def adminAuth (decode : String → String) (ADMIN_USER ADMIN_PASS : Option String)
    (authorization : Option String) : AuthOutcome :=
  let u := ADMIN_USER.getD ""
  let p := ADMIN_PASS.getD ""
  if u = "" ∨ p = "" then .status500
  else
    match parseBasicAuth decode authorization with
    | none => .status401
    | some creds => if creds.user ≠ u ∨ creds.pass ≠ p then .status401 else .next

/-! ## Auxiliary definitions of the proofs -/

/-- The keys of a map, in insertion order. -/
def JSMap.keys {κ ν : Type} (m : JSMap κ ν) : List κ := m.map Prod.fst

/-- The record a driver starts from when a row first mentions it. -/
def freshDriver (row : Row) : DriverAgg :=
  { id := row.driver_id, name := row.driver_name, totalPoints := 0, resultsCount := 0,
    teamHits := [] }

/-- The effect of one row on the `teamHits` of its driver. -/
def bumpHits (row : Row) (hits : JSMap Int TeamHit) : JSMap Int TeamHit :=
  match row.team_id with
  | some tid => if truthy row.team_id then hitTeam hits tid row.team_name else hits
  | none => hits

/-- The effect of one row on the record of its driver. -/
def bumpDriver (points : List Int) (row : Row) (d : DriverAgg) : DriverAgg :=
  { d with totalPoints := jsAdd d.totalPoints (pointsForPlace row.place points)
           resultsCount := d.resultsCount + 1
           teamHits := bumpHits row d.teamHits }

/-- The effect of one row on the `drivers` map. -/
def driverStep (points : List Int) (m : JSMap Int DriverAgg) (row : Row) :
    JSMap Int DriverAgg :=
  JSMap.set m row.driver_id
    (bumpDriver points row ((JSMap.get m row.driver_id).getD (freshDriver row)))

/-- The record a team starts from when a row first mentions it. -/
def freshTeam (tid : Int) (row : Row) : TeamAgg :=
  { id := tid, name := row.team_name, totalPoints := 0, drivers := [] }

/-- The effect of one row on the record of its team. -/
def bumpTeam (points : List Int) (row : Row) (t : TeamAgg) : TeamAgg :=
  { t with totalPoints := jsAdd t.totalPoints (pointsForPlace row.place points)
           drivers := JSSet.add t.drivers row.driver_id }

/-- The effect of one row on the `teams` map. -/
def teamStep (points : List Int) (m : JSMap Int TeamAgg) (row : Row) : JSMap Int TeamAgg :=
  match row.team_id with
  | some tid =>
    if truthy row.team_id then
      JSMap.set m tid (bumpTeam points row ((JSMap.get m tid).getD (freshTeam tid row)))
    else m
  | none => m

/-- The rows of one driver, in row order. -/
def rowsOfDriver (d : Int) (rows : List Row) : List Row :=
  rows.filter fun r => r.driver_id = d

/-- The rows tagged with one team, in row order. -/
def rowsOfTeam (t : Int) (rows : List Row) : List Row :=
  rows.filter fun r => r.team_id = some t

/-- The points the rows score under a table, summed exactly. -/
def sumPoints (points : List Int) (rows : List Row) : Int :=
  (rows.map fun r => pointsForPlace r.place points).sum

/-- The running total of the loop over the rows, in row order: each addition
rounded to binary64. -/
def runningTotal (points : List Int) (rows : List Row) : Int :=
  rows.foldl (fun acc r => jsAdd acc (pointsForPlace r.place points)) 0

/-- The sum of the absolute values of the points the rows score. -/
def absPoints (points : List Int) (rows : List Row) : Nat :=
  (rows.map fun r => (pointsForPlace r.place points).natAbs).sum

/-- The `teamHits` map a driver ends with, from the rows of that driver. -/
def hitsOf (rows : List Row) : JSMap Int TeamHit :=
  rows.foldl (fun hits r => bumpHits r hits) []

/-- The set obtained by adding the elements of a list one by one. -/
def JSSet.ofList (l : List Int) : JSSet := l.foldl JSSet.add []

/-- The record of driver `d` after the loop, read off the rows. -/
def driverAggOf (points : List Int) (d : Int) (rows : List Row) : DriverAgg :=
  { id := d
    name := ((rowsOfDriver d rows).head?.map fun r => r.driver_name).getD ""
    totalPoints := runningTotal points (rowsOfDriver d rows)
    resultsCount := (rowsOfDriver d rows).length
    teamHits := hitsOf (rowsOfDriver d rows) }

/-- The driver records after the loop, in map order, read off the rows. -/
def driverRecords (points : List Int) (rows : List Row) : List DriverAgg :=
  (JSSet.ofList (rows.map fun r => r.driver_id)).map fun d => driverAggOf points d rows

/-- The team ids of the rows that pass the test `if (row.team_id)`, in row order. -/
def taggedTeams (rows : List Row) : List Int :=
  rows.filterMap fun r => if truthy r.team_id then r.team_id else none

/-- The record of team `t` after the loop, read off the rows. -/
def teamAggOf (points : List Int) (t : Int) (rows : List Row) : TeamAgg :=
  { id := t
    name := ((rowsOfTeam t rows).head?.bind fun r => r.team_name)
    totalPoints := runningTotal points (rowsOfTeam t rows)
    drivers := JSSet.ofList ((rowsOfTeam t rows).map fun r => r.driver_id) }

/-- The team records after the loop, in map order, read off the rows. -/
def teamRecords (points : List Int) (rows : List Row) : List TeamAgg :=
  (JSSet.ofList (taggedTeams rows)).map fun t => teamAggOf points t rows

/-- The `teamHits` entry of team `t`, read off the rows of one driver. -/
def hitOf (t : Int) (rows : List Row) : TeamHit :=
  { name := (rowsOfTeam t rows).head?.bind fun r => r.team_name
    count := (rowsOfTeam t rows).length }

/-- The entry a hit turns into when its team is seen once more. -/
def nextHit (team_name : Option String) : Option TeamHit → TeamHit
  | none => { name := team_name, count := 1 }
  | some hit => { hit with count := hit.count + 1 }

/-- The state of the primary-team loop after an entry. -/
def bestStep (best : Best) (e : Int × TeamHit) : Best :=
  if e.2.count > best.bestCount then
    { bestTeamId := some e.1, bestTeamName := e.2.name, bestCount := e.2.count }
  else best

/-- The credentials read off a decoded text: split at its first colon. -/
def credsOfDecoded (decoded : List Char) : Option Creds :=
  match decoded.dropWhile (fun c => c ≠ ':') with
  | [] => none
  | _ :: pass =>
    some { user := String.mk (decoded.takeWhile fun c => c ≠ ':'), pass := String.mk pass }

/-- The credentials read off the space-separated segments of the header. -/
def credsOfSegments (decode : String → String) : List (List Char) → Option Creds
  | type :: token :: _ =>
    if type ≠ "Basic".data ∨ token = [] then none
    else credsOfDecoded (decode (String.mk token)).data
  | _ => none

/-! ## The cleaning rule in the words of the specification -/

/-- The cleaned array in the words of the specification: each value converted
to a number, the finite ones that are at least 0 kept in order, each truncated
toward zero. -/
def cleanedSpec (c : List JSVal) : List Int :=
  c.filterMap fun v =>
    match Number v with
    | .fin q => if 0 ≤ q.num then some (q.num.tdiv q.den) else none
    | _ => none

/-! ## Sample inputs -/

/-- A result row with the given id, driver, team and place (names and map fixed). -/
def sampleRow (id driver : Int) (team : Option Int) (place : Int) : Row :=
  { result_id := id, driver_id := driver, driver_name := "driver", team_id := team,
    team_name := team.map fun _ => "team", map_id := 1, map_name := "map",
    place := .num (.ofInt place), time_ms := none }

/-- The rows of the end-to-end scenario of the specification. -/
def scenarioRows : List Row :=
  [sampleRow 1 1 (some 10) 1, sampleRow 2 1 (some 20) 3, sampleRow 3 1 (some 20) 2]

/-- The standing of driver 1 in the end-to-end scenario. -/
def scenarioStanding : DriverStanding :=
  { id := 1, name := "driver", teamId := some 20, teamName := some "team",
    totalPoints := 58, resultsCount := 3 }

/-- Two rows of one driver, the second with a place beyond a three-entry table. -/
def beyondRows : List Row := [sampleRow 1 1 none 1, sampleRow 2 1 none 7]

/-- The standing of the driver of `beyondRows` under the table `[25, 18, 15]`. -/
def beyondStanding : DriverStanding :=
  { id := 1, name := "driver", teamId := none, teamName := none, totalPoints := 25,
    resultsCount := 2 }

/-- Three rows tagged with team 10: two of driver 1 and one of driver 2. -/
def sharedTeamRows : List Row :=
  [sampleRow 1 1 (some 10) 1, sampleRow 2 1 (some 10) 2, sampleRow 3 2 (some 10) 3]

/-- The standing of team 10 over `sharedTeamRows` under the table `[25, 18, 15]`. -/
def sharedTeamStanding : TeamStanding :=
  { id := 10, name := some "team", totalPoints := 58, driversCount := 2 }

/-- Two rows of two drivers with the same place, driver 2 first. -/
def tiedRows : List Row := [sampleRow 1 2 none 1, sampleRow 2 1 none 1]

/-- The standing of driver `d` over `tiedRows` under the table `[25, 18, 15]`. -/
def tiedStanding (d : Int) : DriverStanding :=
  { id := d, name := "driver", teamId := none, teamName := none, totalPoints := 25,
    resultsCount := 1 }

/-- The candidate `[25.9, -3, "18"]` of the specification. -/
def mixedCandidate : List JSVal :=
  [.num (.fin ⟨259, 10, by decide⟩), .num (.ofInt (-3)), .str "18"]

/-- A settings table whose `points_json` holds the array `["5", 3.7, -1, null]`. -/
def storedTable : JSMap String JsonText :=
  [("points_json", .array [.str "5", .num (.fin ⟨37, 10, by decide⟩), .num (.ofInt (-1)), .null])]

/-- The place `1.5`. -/
def placeOneAndHalf : JSVal := .num (.fin ⟨3, 2, by decide⟩)

/-- The value of a character of the base64 alphabets. -/
def base64Value (c : Char) : Option Nat :=
  let n := c.toNat
  if 65 ≤ n ∧ n ≤ 90 then some (n - 65)
  else if 97 ≤ n ∧ n ≤ 122 then some (n - 71)
  else if 48 ≤ n ∧ n ≤ 57 then some (n + 4)
  else if n = 43 ∨ n = 45 then some 62
  else if n = 47 ∨ n = 95 then some 63
  else none

/-- The bytes written by a sequence of base64 digits. -/
def base64Bytes : List Nat → List Nat
  | a :: b :: c :: d :: rest =>
    (a * 4 + b / 16) :: ((b % 16) * 16 + c / 4) :: ((c % 4) * 64 + d) :: base64Bytes rest
  | [a, b, c] => [a * 4 + b / 16, (b % 16) * 16 + c / 4]
  | [a, b] => [a * 4 + b / 16]
  | _ => []

/-- A base64 decoder for ASCII payloads, to evaluate the middleware on sample
requests. -/
def sampleDecode (token : String) : String :=
  String.mk ((base64Bytes (token.data.filterMap base64Value)).map Char.ofNat)

/-- A points table whose first entry is `2 ^ 53`. -/
def hugeTable : List Int := [9007199254740992, 1, 1]

/-- Two rows of driver 1 and team 10, at the places 1 and 2. -/
def hugeRows : List Row := [sampleRow 1 1 (some 10) 1, sampleRow 2 1 (some 10) 2]

/-- Three rows of driver 1 and team 10, at the places 1, 2 and 3. -/
def hugeRowsForward : List Row :=
  [sampleRow 1 1 (some 10) 1, sampleRow 2 1 (some 10) 2, sampleRow 3 1 (some 10) 3]

/-- The rows of `hugeRowsForward` with the first one moved to the end. -/
def hugeRowsRotated : List Row :=
  [sampleRow 2 1 (some 10) 2, sampleRow 3 1 (some 10) 3, sampleRow 1 1 (some 10) 1]

/-- Three rows of two drivers, the second without a team. -/
def mixedTeamRows : List Row :=
  [sampleRow 1 1 (some 10) 1, sampleRow 2 1 none 2, sampleRow 3 2 (some 10) 3]

/-- The standing of team 10 over `mixedTeamRows` under the table `[25, 18, 15]`. -/
def mixedTeamStanding : TeamStanding :=
  { id := 10, name := some "team", totalPoints := 40, driversCount := 2 }

/-! ## Lemmas on `JSMap` -/



theorem JSMap.get_eq_none_iff {κ ν : Type} [DecidableEq κ] (m : JSMap κ ν) (k : κ) :
    JSMap.get m k = none ↔ k ∉ JSMap.keys m := by
  induction m with
  | nil => simp [JSMap.get, JSMap.keys]
  | cons e rest ih =>
    obtain ⟨k1, v1⟩ := e
    by_cases h : k1 = k
    · simp [JSMap.get, JSMap.keys, h]
    · have h2 : ¬ k = k1 := fun e => h e.symm
      simpa [JSMap.get, JSMap.keys, h, h2] using ih

theorem JSMap.has_iff {κ ν : Type} [DecidableEq κ] (m : JSMap κ ν) (k : κ) :
    JSMap.has m k = true ↔ k ∈ JSMap.keys m := by
  unfold JSMap.has
  cases hg : JSMap.get m k with
  | none => simpa using (JSMap.get_eq_none_iff m k).1 hg
  | some v =>
    have : ¬ (k ∉ JSMap.keys m) := fun hn => by
      rw [(JSMap.get_eq_none_iff m k).2 hn] at hg; cases hg
    simpa using this

theorem JSMap.get_set_self {κ ν : Type} [DecidableEq κ] (m : JSMap κ ν) (k : κ) (v : ν) :
    JSMap.get (JSMap.set m k v) k = some v := by
  induction m with
  | nil => simp [JSMap.get, JSMap.set]
  | cons e rest ih =>
    obtain ⟨k1, v1⟩ := e
    by_cases h : k1 = k
    · simp [JSMap.get, JSMap.set, h]
    · simpa [JSMap.get, JSMap.set, h] using ih

theorem JSMap.get_set_ne {κ ν : Type} [DecidableEq κ] (m : JSMap κ ν) (k k2 : κ) (v : ν)
    (hne : k2 ≠ k) : JSMap.get (JSMap.set m k v) k2 = JSMap.get m k2 := by
  have hne2 : ¬ k = k2 := fun e => hne e.symm
  induction m with
  | nil => simp [JSMap.get, JSMap.set, hne2]
  | cons e rest ih =>
    obtain ⟨k1, v1⟩ := e
    by_cases h : k1 = k
    · subst h
      simp [JSMap.get, JSMap.set, hne2]
    · by_cases h2 : k1 = k2
      · subst h2
        simp [JSMap.get, JSMap.set, h]
      · simpa [JSMap.get, JSMap.set, h, h2] using ih

theorem JSMap.get_set {κ ν : Type} [DecidableEq κ] (m : JSMap κ ν) (k k2 : κ) (v : ν) :
    JSMap.get (JSMap.set m k v) k2 = if k2 = k then some v else JSMap.get m k2 := by
  by_cases h : k2 = k
  · subst h; simp [JSMap.get_set_self]
  · simp [h, JSMap.get_set_ne m k k2 v h]

theorem JSMap.keys_set {κ ν : Type} [DecidableEq κ] (m : JSMap κ ν) (k : κ) (v : ν) :
    JSMap.keys (JSMap.set m k v)
      = if k ∈ JSMap.keys m then JSMap.keys m else JSMap.keys m ++ [k] := by
  induction m with
  | nil => simp [JSMap.keys, JSMap.set]
  | cons e rest ih =>
    obtain ⟨k1, v1⟩ := e
    by_cases h : k1 = k
    · simp [JSMap.keys, JSMap.set, h]
    · have h2 : ¬ k = k1 := fun e => h e.symm
      simp only [JSMap.keys] at ih
      simp only [JSMap.keys, JSMap.set, h, if_false, List.map_cons, List.mem_cons, h2, false_or,
        ih]
      split <;> simp

theorem JSMap.set_set {κ ν : Type} [DecidableEq κ] (m : JSMap κ ν) (k : κ) (v w : ν) :
    JSMap.set (JSMap.set m k v) k w = JSMap.set m k w := by
  induction m with
  | nil => simp [JSMap.set]
  | cons e rest ih =>
    obtain ⟨k1, v1⟩ := e
    by_cases h : k1 = k
    · simp [JSMap.set, h]
    · simp [JSMap.set, h, ih]

/-- With distinct keys, the entries of a map are what `get` finds. -/
theorem JSMap.mem_iff_get {κ ν : Type} [DecidableEq κ] (m : JSMap κ ν)
    (hnd : (JSMap.keys m).Nodup) (k : κ) (v : ν) :
    (k, v) ∈ m ↔ JSMap.get m k = some v := by
  induction m with
  | nil => simp [JSMap.get]
  | cons e rest ih =>
    obtain ⟨k1, v1⟩ := e
    simp only [JSMap.keys, List.map_cons, List.nodup_cons] at hnd
    by_cases h : k1 = k
    · subst h
      simp only [JSMap.get, if_true, List.mem_cons, Prod.mk.injEq, true_and, Option.some.injEq]
      constructor
      · rintro (h | h)
        · exact h.symm
        · exact absurd (List.mem_map_of_mem Prod.fst h) hnd.1
      · intro h; exact Or.inl h.symm
    · have h2 : ¬ k = k1 := fun e => h e.symm
      simp only [JSMap.get, h, if_false, List.mem_cons, Prod.mk.injEq, h2, false_and, false_or]
      exact ih hnd.2

/-! ## The loop body, map by map -/

theorem JSMap.get_ensure {κ ν : Type} [DecidableEq κ] (m : JSMap κ ν) (k : κ) (init : ν) :
    JSMap.get (if (!JSMap.has m k) = true then JSMap.set m k init else m) k
      = some ((JSMap.get m k).getD init) := by
  unfold JSMap.has
  cases hg : JSMap.get m k with
  | none => simp [JSMap.get_set_self]
  | some v => simp [hg]

theorem JSMap.set_ensure {κ ν : Type} [DecidableEq κ] (m : JSMap κ ν) (k : κ) (init v : ν) :
    JSMap.set (if (!JSMap.has m k) = true then JSMap.set m k init else m) k v
      = JSMap.set m k v := by
  unfold JSMap.has
  cases hg : JSMap.get m k with
  | none => simp [JSMap.set_set]
  | some v => simp

theorem aggregateRow_eq (points : List Int) (st : AggState) (row : Row) :
    aggregateRow points st row
      = { drivers := driverStep points st.drivers row
          teams := teamStep points st.teams row } := by
  unfold aggregateRow driverStep teamStep
  simp only [JSMap.get_ensure, JSMap.set_ensure]
  cases ht : row.team_id with
  | none => simp [bumpDriver, bumpHits, ht, freshDriver]
  | some tid =>
    by_cases htr : truthy (some tid) = true
    · simp [bumpDriver, bumpHits, bumpTeam, ht, htr, freshDriver, freshTeam]
    · simp [bumpDriver, bumpHits, ht, htr, freshDriver]

theorem aggregate_drivers (points : List Int) (rows : List Row) :
    (aggregate points rows).drivers = rows.foldl (driverStep points) [] := by
  unfold aggregate
  generalize ([] : JSMap Int TeamAgg) = t0
  generalize ([] : JSMap Int DriverAgg) = d0
  induction rows generalizing d0 t0 with
  | nil => rfl
  | cons r rest ih => simp only [List.foldl_cons, aggregateRow_eq]; exact ih _ _

theorem aggregate_teams (points : List Int) (rows : List Row) :
    (aggregate points rows).teams = rows.foldl (teamStep points) [] := by
  unfold aggregate
  generalize ([] : JSMap Int TeamAgg) = t0
  generalize ([] : JSMap Int DriverAgg) = d0
  induction rows generalizing d0 t0 with
  | nil => rfl
  | cons r rest ih => simp only [List.foldl_cons, aggregateRow_eq]; exact ih _ _

/-! ## Sets built by repeated `add` -/

theorem JSSet.mem_add (s : JSSet) (x y : Int) : y ∈ JSSet.add s x ↔ y ∈ s ∨ y = x := by
  unfold JSSet.add
  split
  · rename_i h
    constructor
    · exact Or.inl
    · rintro (h1 | h1)
      · exact h1
      · rw [h1]; exact h
  · simp

theorem JSSet.nodup_add (s : JSSet) (x : Int) (h : s.Nodup) : (JSSet.add s x).Nodup := by
  unfold JSSet.add
  split
  · exact h
  · rename_i hx
    rw [List.nodup_append]
    refine ⟨h, List.nodup_singleton x, ?_⟩
    intro a ha hb
    rw [List.mem_singleton] at hb
    exact hx (hb ▸ ha)

theorem JSSet.ofList_append (l : List Int) (x : Int) :
    JSSet.ofList (l ++ [x]) = JSSet.add (JSSet.ofList l) x := by
  simp [JSSet.ofList, List.foldl_append]

theorem JSSet.mem_ofList (l : List Int) (y : Int) : y ∈ JSSet.ofList l ↔ y ∈ l := by
  induction l using List.reverseRecOn with
  | nil => simp [JSSet.ofList]
  | append_singleton l x ih => rw [JSSet.ofList_append, JSSet.mem_add, ih]; simp

theorem JSSet.nodup_ofList (l : List Int) : (JSSet.ofList l).Nodup := by
  induction l using List.reverseRecOn with
  | nil => simp [JSSet.ofList]
  | append_singleton l x ih => rw [JSSet.ofList_append]; exact JSSet.nodup_add _ _ ih

/-- The size of the set is the number of distinct elements of the list. -/
theorem JSSet.size_ofList (l : List Int) : JSSet.size (JSSet.ofList l) = l.toFinset.card := by
  unfold JSSet.size
  rw [← List.toFinset_card_of_nodup (JSSet.nodup_ofList l)]
  congr 1
  ext y
  simp [JSSet.mem_ofList]

/-! ## The `drivers` map after the loop -/

theorem keys_driverStep (points : List Int) (m : JSMap Int DriverAgg) (row : Row) :
    JSMap.keys (driverStep points m row) = JSSet.add (JSMap.keys m) row.driver_id := by
  unfold driverStep JSSet.add
  rw [JSMap.keys_set]

theorem keys_drivers (points : List Int) (rows : List Row) :
    JSMap.keys (rows.foldl (driverStep points) [])
      = JSSet.ofList (rows.map fun r => r.driver_id) := by
  induction rows using List.reverseRecOn with
  | nil => rfl
  | append_singleton l r ih =>
    rw [List.foldl_append, List.map_append, List.map_singleton, JSSet.ofList_append, ← ih]
    exact keys_driverStep points _ r

theorem hitsOf_append (l : List Row) (r : Row) :
    hitsOf (l ++ [r]) = bumpHits r (hitsOf l) := by
  simp [hitsOf, List.foldl_append]

theorem sumPoints_append (points : List Int) (l : List Row) (r : Row) :
    sumPoints points (l ++ [r]) = sumPoints points l + pointsForPlace r.place points := by
  simp [sumPoints]

theorem runningTotal_append (points : List Int) (l : List Row) (r : Row) :
    runningTotal points (l ++ [r])
      = jsAdd (runningTotal points l) (pointsForPlace r.place points) := by
  simp [runningTotal, List.foldl_append]

/-! ## Exact sums within the binary64 integer range -/

theorem excessBits_of_lt (fuel a : Nat) (h : a < 2 ^ 53) : excessBits fuel a = 0 := by
  cases fuel with
  | zero => rfl
  | succ f => simp only [excessBits, h, if_true]

theorem roundHalfEven_one (a : Nat) : roundHalfEven a 1 = a := by
  simp [roundHalfEven, Nat.mod_one]

/-- An integer of absolute value at most `2 ^ 53` is a binary64 number. -/
theorem roundBinary64_of_natAbs_le (n : Int) (h : n.natAbs ≤ 2 ^ 53) : roundBinary64 n = n := by
  rcases Nat.lt_or_ge n.natAbs (2 ^ 53) with hlt | hge
  · unfold roundBinary64
    simp only [excessBits_of_lt _ _ hlt, pow_zero, roundHalfEven_one, Nat.mul_one]
    split
    · rename_i hn
      rw [Int.ofNat_eq_coe, Int.ofNat_natAbs_of_nonpos (Int.le_of_lt hn), Int.neg_neg]
    · rename_i hn
      rw [Int.ofNat_eq_coe, Int.natAbs_of_nonneg (Int.not_lt.1 hn)]
  · have he : n.natAbs = 2 ^ 53 := Nat.le_antisymm h hge
    rcases Int.natAbs_eq n with h1 | h1
    · rw [he] at h1
      rw [h1]
      decide
    · rw [he] at h1
      rw [h1]
      decide

theorem natAbs_sumPoints_le (points : List Int) (rows : List Row) :
    (sumPoints points rows).natAbs ≤ absPoints points rows := by
  induction rows with
  | nil => simp [sumPoints, absPoints]
  | cons r rest ih =>
    simp only [sumPoints, absPoints, List.map_cons, List.sum_cons] at ih ⊢
    exact Nat.le_trans (Int.natAbs_add_le _ _) (Nat.add_le_add_left ih _)

theorem absPoints_append (points : List Int) (l : List Row) (r : Row) :
    absPoints points (l ++ [r]) = absPoints points l + (pointsForPlace r.place points).natAbs := by
  simp [absPoints]

/-- While the absolute values of the points sum to at most `2 ^ 53`, the
running total of the loop is the exact sum. -/
theorem runningTotal_eq_sumPoints (points : List Int) (rows : List Row)
    (h : absPoints points rows ≤ 2 ^ 53) : runningTotal points rows = sumPoints points rows := by
  induction rows using List.reverseRecOn with
  | nil => rfl
  | append_singleton l r ih =>
    have hl : absPoints points l ≤ 2 ^ 53 := by
      rw [absPoints_append] at h
      omega
    have hsum : (sumPoints points l + pointsForPlace r.place points).natAbs ≤ 2 ^ 53 := by
      rw [← sumPoints_append]
      exact Nat.le_trans (natAbs_sumPoints_le _ _) h
    rw [runningTotal_append, ih hl, sumPoints_append]
    exact roundBinary64_of_natAbs_le _ hsum

theorem absPoints_filter_le (points : List Int) (rows : List Row) (p : Row → Bool) :
    absPoints points (rows.filter p) ≤ absPoints points rows := by
  induction rows with
  | nil => simp [absPoints]
  | cons r rest ih =>
    by_cases hp : p r = true
    · simp only [List.filter, hp, absPoints, List.map_cons, List.sum_cons] at ih ⊢
      omega
    · simp only [List.filter, hp, absPoints, List.map_cons, List.sum_cons] at ih ⊢
      omega

theorem absPoints_perm (points : List Int) {l1 l2 : List Row} (h : l1.Perm l2) :
    absPoints points l1 = absPoints points l2 := by
  unfold absPoints
  exact (h.map _).sum_eq

theorem get_driverStep (points : List Int) (m : JSMap Int DriverAgg) (row : Row) (d : Int) :
    JSMap.get (driverStep points m row) d
      = if d = row.driver_id then
          some (bumpDriver points row ((JSMap.get m row.driver_id).getD (freshDriver row)))
        else JSMap.get m d := by
  unfold driverStep
  rw [JSMap.get_set]

theorem get_drivers (points : List Int) (rows : List Row) (d : Int) :
    JSMap.get (rows.foldl (driverStep points) []) d
      = if d ∈ rows.map (fun r => r.driver_id) then some (driverAggOf points d rows)
        else none := by
  induction rows using List.reverseRecOn with
  | nil => simp [JSMap.get]
  | append_singleton l r ih =>
    rw [List.foldl_append]
    simp only [List.foldl_cons, List.foldl_nil]
    rw [get_driverStep]
    by_cases hd : d = r.driver_id
    · subst hd
      have hmem : r.driver_id ∈ (l ++ [r]).map (fun r => r.driver_id) := by simp
      rw [if_pos rfl, if_pos hmem, ih]
      have hrows : rowsOfDriver r.driver_id (l ++ [r]) = rowsOfDriver r.driver_id l ++ [r] := by
        simp [rowsOfDriver, List.filter_append]
      by_cases hin : r.driver_id ∈ l.map (fun r => r.driver_id)
      · have hne : rowsOfDriver r.driver_id l ≠ [] := by
          obtain ⟨x, hx, hxd⟩ := List.mem_map.1 hin
          intro he
          have : x ∈ rowsOfDriver r.driver_id l := by
            simp [rowsOfDriver, hx, hxd]
          rw [he] at this
          cases this
        rw [if_pos hin]
        simp only [Option.getD_some, driverAggOf, bumpDriver, hrows, runningTotal_append,
          hitsOf_append, List.length_append, List.length_singleton, Option.some.injEq,
          DriverAgg.mk.injEq, true_and, and_true]
        cases hl : rowsOfDriver r.driver_id l with
        | nil => exact absurd hl hne
        | cons a t => simp
      · have he : rowsOfDriver r.driver_id l = [] := by
          simp only [rowsOfDriver, List.filter_eq_nil_iff]
          intro x hx hxd
          exact hin (List.mem_map.2 ⟨x, hx, by simpa using hxd⟩)
        rw [if_neg hin]
        simp [driverAggOf, bumpDriver, hrows, he, freshDriver, runningTotal, hitsOf]
    · have hrows : rowsOfDriver d (l ++ [r]) = rowsOfDriver d l := by
        have : ¬ r.driver_id = d := fun e => hd e.symm
        simp [rowsOfDriver, List.filter_append, this]
      have hmem : d ∈ (l ++ [r]).map (fun r => r.driver_id) ↔ d ∈ l.map (fun r => r.driver_id) := by
        simp [hd]
      rw [if_neg hd, ih]
      simp only [hmem, driverAggOf, hrows]

/-! ## `pointsForPlace` -/

theorem pointsForPlace_ofInt (p : Int) (t : List Int) :
    pointsForPlace (.num (.ofInt p)) t
      = if 1 ≤ p ∧ p ≤ t.length then t.getD (p - 1).toNat 0 else 0 := by
  unfold pointsForPlace
  simp only [Number, JSNum.ofInt, Fraction.ofInt, Number.isFinite, JSNum.ltInt, Math.trunc]
  by_cases h1 : 1 ≤ p
  · have hlt : ¬ (p < 1) := by omega
    by_cases h2 : p ≤ t.length
    · have : 0 ≤ p - 1 ∧ p - 1 < t.length := by omega
      simp [hlt, h1, h2, this, Int.tdiv_one]
    · have h3 : ¬ (p - 1 < t.length) := by omega
      simp [hlt, h1, h2, h3, Int.tdiv_one]
  · have hlt : p < 1 := by omega
    simp [hlt, h1]

/-- C1: for an integer place `p`, `pointsForPlace` returns the table entry at
index `p - 1` when `1 ≤ p ≤ length`, and `0` otherwise; on `NaN` and the
infinities it returns `0`; the three examples of the specification hold. -/
theorem C1_pointsForPlace_table_entry_or_zero (t : List Int) (p : Int) :
    (if 1 ≤ p ∧ p ≤ t.length then t[(p - 1).toNat]? else some 0)
        = some (pointsForPlace (.num (.ofInt p)) t)
      ∧ pointsForPlace (.num .nan) t = 0
      ∧ pointsForPlace (.num .posInf) t = 0
      ∧ pointsForPlace (.num .negInf) t = 0
      ∧ pointsForPlace (.num (.ofInt 1)) [25, 18, 15] = 25
      ∧ pointsForPlace (.num (.ofInt 4)) [25, 18, 15] = 0
      ∧ pointsForPlace (.num (.ofInt 0)) t = 0 := by
  refine ⟨?_, by simp [pointsForPlace, Number, Number.isFinite],
    by simp [pointsForPlace, Number, Number.isFinite],
    by simp [pointsForPlace, Number, Number.isFinite], by decide, by decide, ?_⟩
  · rw [pointsForPlace_ofInt]
    split
    · rename_i h
      have hlt2 : p.toNat - 1 < t.length := by omega
      simp [List.getD, List.getElem?_eq_getElem hlt2]
    · rfl
  · rw [pointsForPlace_ofInt]; simp

theorem JSMap.values_eq_map_keys {κ ν : Type} [DecidableEq κ] (m : JSMap κ ν) (f : κ → ν)
    (hnd : (JSMap.keys m).Nodup) (hget : ∀ k ∈ JSMap.keys m, JSMap.get m k = some (f k)) :
    JSMap.values m = (JSMap.keys m).map f := by
  induction m with
  | nil => rfl
  | cons e rest ih =>
    obtain ⟨k1, v1⟩ := e
    simp only [JSMap.keys, List.map_cons, List.nodup_cons] at hnd
    have h1 : v1 = f k1 := by
      have := hget k1 (by simp [JSMap.keys])
      simpa [JSMap.get] using this
    have hrest : ∀ k ∈ JSMap.keys rest, JSMap.get rest k = some (f k) := by
      intro k hk
      have hne : ¬ k1 = k := fun e => hnd.1 (e ▸ hk)
      have := hget k (by simp only [JSMap.keys, List.map_cons, List.mem_cons]; exact Or.inr hk)
      simpa [JSMap.get, hne] using this
    have := ih hnd.2 hrest
    simp only [JSMap.values, JSMap.keys] at this ⊢
    simp [this, h1]

theorem values_drivers (points : List Int) (rows : List Row) :
    JSMap.values (aggregate points rows).drivers = driverRecords points rows := by
  rw [aggregate_drivers]
  unfold driverRecords
  rw [← keys_drivers points rows]
  apply JSMap.values_eq_map_keys
  · rw [keys_drivers]; exact JSSet.nodup_ofList _
  · intro k hk
    rw [keys_drivers, JSSet.mem_ofList] at hk
    rw [get_drivers, if_pos hk]

theorem jsSort_perm {α : Type} (cmp : α → α → Int) (l : List α) : (jsSort cmp l).Perm l :=
  List.perm_insertionSort _ l

theorem mem_jsSort {α : Type} (cmp : α → α → Int) (l : List α) (a : α) :
    a ∈ jsSort cmp l ↔ a ∈ l := (jsSort_perm cmp l).mem_iff

/-- The leaderboard is a rearrangement of the standings of the driver records. -/
theorem leaderboard_perm (rows : List Row) (points : List Int) :
    (computeLeaderboard rows points).leaderboard.Perm
      ((driverRecords points rows).map driverStanding) := by
  unfold computeLeaderboard
  simp only [values_drivers]
  exact jsSort_perm _ _

theorem mem_leaderboard (rows : List Row) (points : List Int) (s : DriverStanding) :
    s ∈ (computeLeaderboard rows points).leaderboard
      ↔ s.id ∈ rows.map (fun r => r.driver_id)
        ∧ s = driverStanding (driverAggOf points s.id rows) := by
  rw [(leaderboard_perm rows points).mem_iff]
  unfold driverRecords
  simp only [List.mem_map, JSSet.mem_ofList]
  constructor
  · rintro ⟨a, ⟨d, ⟨r, hr, hrd⟩, hda⟩, has⟩
    have hid : s.id = d := by rw [← has, ← hda]; rfl
    refine ⟨⟨r, hr, by rw [hid]; exact hrd⟩, ?_⟩
    rw [hid, hda, has]
  · rintro ⟨⟨r, hr, hrd⟩, hs⟩
    exact ⟨_, ⟨s.id, ⟨r, hr, hrd⟩, rfl⟩, hs.symm⟩

theorem leaderboard_ids (rows : List Row) (points : List Int) :
    ((computeLeaderboard rows points).leaderboard.map fun s => s.id).Perm
      (JSSet.ofList (rows.map fun r => r.driver_id)) := by
  have h := (leaderboard_perm rows points).map (fun s => s.id)
  refine h.trans ?_
  unfold driverRecords
  rw [List.map_map, List.map_map]
  have : (((fun s : DriverStanding => s.id) ∘ driverStanding) ∘ fun d => driverAggOf points d rows)
      = id := by
    funext d; rfl
  rw [this, List.map_id]

theorem totalPoints_of_mem_leaderboard (rows : List Row) (points : List Int)
    (s : DriverStanding) (hs : s ∈ (computeLeaderboard rows points).leaderboard) :
    s.totalPoints = runningTotal points (rowsOfDriver s.id rows)
      ∧ s.resultsCount = (rowsOfDriver s.id rows).length := by
  have h := ((mem_leaderboard rows points s).1 hs).2
  constructor
  · rw [h]; rfl
  · rw [h]; rfl

/-- C2, as amended: the driver standings hold exactly one entry per driver id
of the rows; its `resultsCount` is the number of rows of the driver, rows
scoring 0 included, and its `totalPoints` is the sum of `pointsForPlace` over
those rows whenever the absolute values of their points sum to at most
`2 ^ 53`, the range in which the binary64 additions of the loop are exact.  The
scenario of the specification gives 58 points from 3 results. -/
theorem C2_driver_totals_and_counts (rows : List Row) (points : List Int) :
    ((computeLeaderboard rows points).leaderboard.map fun s => s.id).Nodup
      ∧ (∀ d : Int, d ∈ ((computeLeaderboard rows points).leaderboard.map fun s => s.id)
          ↔ d ∈ rows.map fun r => r.driver_id)
      ∧ (∀ s ∈ (computeLeaderboard rows points).leaderboard,
          s.resultsCount = (rows.filter fun r => r.driver_id = s.id).length
            ∧ (((rows.filter fun r => r.driver_id = s.id).map
                  fun r => (pointsForPlace r.place points).natAbs).sum ≤ 2 ^ 53 →
                s.totalPoints
                  = ((rows.filter fun r => r.driver_id = s.id).map
                      fun r => pointsForPlace r.place points).sum))
      ∧ ((computeLeaderboard scenarioRows [25, 18, 15]).leaderboard.map
          fun s => (s.id, s.totalPoints, s.resultsCount)) = [(1, 58, 3)] := by
  refine ⟨?_, ?_, ?_, by decide⟩
  · exact (leaderboard_ids rows points).nodup_iff.2 (JSSet.nodup_ofList _)
  · intro d
    rw [(leaderboard_ids rows points).mem_iff, JSSet.mem_ofList]
  · intro s hs
    obtain ⟨h1, h2⟩ := totalPoints_of_mem_leaderboard rows points s hs
    refine ⟨h2, ?_⟩
    intro hb
    rw [h1]
    exact runningTotal_eq_sumPoints points _ hb

/-- C2 on a row whose place lies beyond the table: the driver of rows with
places 1 and 7 under the table `[25, 18, 15]` has 25 points from 2 results. -/
theorem C2_driver_totals_and_counts_witness :
    beyondStanding ∈ (computeLeaderboard beyondRows [25, 18, 15]).leaderboard
      ∧ ((beyondRows.filter fun r => r.driver_id = beyondStanding.id).map
            fun r => (pointsForPlace r.place [25, 18, 15]).natAbs).sum ≤ 2 ^ 53
      ∧ beyondStanding.totalPoints
          = ((beyondRows.filter fun r => r.driver_id = beyondStanding.id).map
              fun r => pointsForPlace r.place [25, 18, 15]).sum
      ∧ beyondStanding.resultsCount
          = (beyondRows.filter fun r => r.driver_id = beyondStanding.id).length :=
  have hmem : beyondStanding ∈ (computeLeaderboard beyondRows [25, 18, 15]).leaderboard := by
    decide
  have hb : ((beyondRows.filter fun r => r.driver_id = beyondStanding.id).map
      fun r => (pointsForPlace r.place [25, 18, 15]).natAbs).sum ≤ 2 ^ 53 := by
    decide
  have h := (C2_driver_totals_and_counts beyondRows [25, 18, 15]).2.2.1 beyondStanding hmem
  ⟨hmem, hb, h.2 hb, h.1⟩

/-- C2 fails as stated: under the table `[2^53, 1, 1]` a driver with rows at
the places 1 and 2 gets `totalPoints = 2^53`, while the points of those rows
sum to `2^53 + 1`. -/
theorem C2_counterexample_rounded_total :
    ((computeLeaderboard hugeRows hugeTable).leaderboard.map
        fun s => (s.id, s.totalPoints, s.resultsCount)) = [(1, 9007199254740992, 2)]
      ∧ ((hugeRows.filter fun r => r.driver_id = 1).map
          fun r => pointsForPlace r.place hugeTable).sum = 9007199254740993 := by
  decide

/-! ## The `teams` map after the loop -/

theorem truthy_some (t : Int) : truthy (some t) = true ↔ t ≠ 0 := by
  simp [truthy]

theorem mem_taggedTeams (rows : List Row) (t : Int) :
    t ∈ taggedTeams rows ↔ t ≠ 0 ∧ ∃ r ∈ rows, r.team_id = some t := by
  unfold taggedTeams
  rw [List.mem_filterMap]
  constructor
  · rintro ⟨r, hr, h⟩
    by_cases htr : truthy r.team_id = true
    · rw [if_pos htr] at h
      rw [h] at htr
      exact ⟨(truthy_some t).1 htr, r, hr, h⟩
    · rw [if_neg htr] at h; cases h
  · rintro ⟨h0, r, hr, h⟩
    refine ⟨r, hr, ?_⟩
    have : truthy r.team_id = true := by rw [h]; exact (truthy_some t).2 h0
    rw [if_pos this, h]

theorem taggedTeams_append (l : List Row) (r : Row) :
    taggedTeams (l ++ [r])
      = taggedTeams l ++ (if truthy r.team_id then r.team_id.toList else []) := by
  unfold taggedTeams
  rw [List.filterMap_append]
  congr 1
  by_cases htr : truthy r.team_id = true
  · cases h : r.team_id with
    | none => rw [h] at htr; cases htr
    | some t => rw [h] at htr; simp [List.filterMap, htr, h]
  · simp [List.filterMap, htr]

theorem teamStep_of_not_truthy (points : List Int) (m : JSMap Int TeamAgg) (r : Row)
    (h : ¬ truthy r.team_id = true) : teamStep points m r = m := by
  unfold teamStep
  cases ht : r.team_id with
  | none => rfl
  | some t => simp [← ht, h]

theorem teamStep_of_truthy (points : List Int) (m : JSMap Int TeamAgg) (r : Row) (t : Int)
    (ht : r.team_id = some t) (h0 : t ≠ 0) :
    teamStep points m r
      = JSMap.set m t (bumpTeam points r ((JSMap.get m t).getD (freshTeam t r))) := by
  unfold teamStep
  have : truthy (some t) = true := (truthy_some t).2 h0
  simp [ht, this]

theorem keys_teams (points : List Int) (rows : List Row) :
    JSMap.keys (rows.foldl (teamStep points) []) = JSSet.ofList (taggedTeams rows) := by
  induction rows using List.reverseRecOn with
  | nil => rfl
  | append_singleton l r ih =>
    rw [List.foldl_append, taggedTeams_append]
    simp only [List.foldl_cons, List.foldl_nil]
    by_cases htr : truthy r.team_id = true
    · cases ht : r.team_id with
      | none => rw [ht] at htr; cases htr
      | some t =>
        have h0 : t ≠ 0 := (truthy_some t).1 (ht ▸ htr)
        rw [teamStep_of_truthy points _ r t ht h0, JSMap.keys_set, ih]
        have : truthy (some t) = true := ht ▸ htr
        simp only [this, if_true, Option.toList]
        rw [JSSet.ofList_append]
        rfl
    · rw [teamStep_of_not_truthy points _ r htr, ih]
      simp [htr]

theorem rowsOfTeam_append (t : Int) (l : List Row) (r : Row) :
    rowsOfTeam t (l ++ [r]) = rowsOfTeam t l ++ (if r.team_id = some t then [r] else []) := by
  unfold rowsOfTeam
  rw [List.filter_append]
  congr 1
  by_cases h : r.team_id = some t <;> simp [List.filter, h]

theorem get_teams (points : List Int) (rows : List Row) (t : Int) :
    JSMap.get (rows.foldl (teamStep points) []) t
      = if t ∈ taggedTeams rows then some (teamAggOf points t rows) else none := by
  induction rows using List.reverseRecOn with
  | nil => simp [JSMap.get, taggedTeams]
  | append_singleton l r ih =>
    rw [List.foldl_append]
    simp only [List.foldl_cons, List.foldl_nil]
    by_cases htag : r.team_id = some t ∧ t ≠ 0
    · obtain ⟨ht, h0⟩ := htag
      have hmem : t ∈ taggedTeams (l ++ [r]) :=
        (mem_taggedTeams _ t).2 ⟨h0, r, by simp, ht⟩
      rw [teamStep_of_truthy points _ r t ht h0, JSMap.get_set_self, if_pos hmem, ih]
      have hrows : rowsOfTeam t (l ++ [r]) = rowsOfTeam t l ++ [r] := by
        rw [rowsOfTeam_append, if_pos ht]
      by_cases hin : t ∈ taggedTeams l
      · obtain ⟨_, x, hx, hxt⟩ := (mem_taggedTeams l t).1 hin
        have hxm : x ∈ rowsOfTeam t l := by simp [rowsOfTeam, hx, hxt]
        rw [if_pos hin]
        simp only [Option.getD_some, teamAggOf, bumpTeam, hrows, runningTotal_append,
          List.map_append, List.map_singleton, JSSet.ofList_append, Option.some.injEq,
          TeamAgg.mk.injEq, true_and, and_true]
        cases hl : rowsOfTeam t l with
        | nil => rw [hl] at hxm; cases hxm
        | cons a tl => simp
      · have he : rowsOfTeam t l = [] := by
          simp only [rowsOfTeam, List.filter_eq_nil_iff]
          intro x hx hxt
          exact hin ((mem_taggedTeams l t).2 ⟨h0, x, hx, by simpa using hxt⟩)
        rw [if_neg hin]
        simp [teamAggOf, bumpTeam, hrows, he, freshTeam, runningTotal, JSSet.ofList, JSSet.add]
    · have hmem : t ∈ taggedTeams (l ++ [r]) ↔ t ∈ taggedTeams l := by
        rw [mem_taggedTeams, mem_taggedTeams]
        constructor
        · rintro ⟨h0, x, hx, hxt⟩
          rcases List.mem_append.1 hx with h | h
          · exact ⟨h0, x, h, hxt⟩
          · rw [List.mem_singleton] at h
            exact absurd ⟨h ▸ hxt, h0⟩ htag
        · rintro ⟨h0, x, hx, hxt⟩
          exact ⟨h0, x, List.mem_append_left _ hx, hxt⟩
      have hstep : JSMap.get (teamStep points (l.foldl (teamStep points) []) r) t
          = JSMap.get (l.foldl (teamStep points) []) t := by
        by_cases htr : truthy r.team_id = true
        · cases ht : r.team_id with
          | none => rw [ht] at htr; cases htr
          | some t2 =>
            have h0 : t2 ≠ 0 := (truthy_some t2).1 (ht ▸ htr)
            have hne : t ≠ t2 := by
              intro e
              exact htag ⟨by rw [ht, e], by rw [e]; exact h0⟩
            rw [teamStep_of_truthy points _ r t2 ht h0, JSMap.get_set_ne _ _ _ _ hne]
        · rw [teamStep_of_not_truthy points _ r htr]
      rw [hstep, ih]
      by_cases hin : t ∈ taggedTeams l
      · have h0 : t ≠ 0 := ((mem_taggedTeams l t).1 hin).1
        have hrt : ¬ r.team_id = some t := fun e => htag ⟨e, h0⟩
        rw [if_pos hin, if_pos (hmem.2 hin)]
        simp only [teamAggOf, rowsOfTeam_append, if_neg hrt, List.append_nil]
      · rw [if_neg hin, if_neg (fun h => hin (hmem.1 h))]

theorem values_teams (points : List Int) (rows : List Row) :
    JSMap.values (aggregate points rows).teams = teamRecords points rows := by
  rw [aggregate_teams]
  unfold teamRecords
  rw [← keys_teams points rows]
  apply JSMap.values_eq_map_keys
  · rw [keys_teams]; exact JSSet.nodup_ofList _
  · intro k hk
    rw [keys_teams, JSSet.mem_ofList] at hk
    rw [get_teams, if_pos hk]

/-- The teamboard is a rearrangement of the standings of the team records. -/
theorem teamboard_perm (rows : List Row) (points : List Int) :
    (computeLeaderboard rows points).teamboard.Perm
      ((teamRecords points rows).map teamStanding) := by
  unfold computeLeaderboard
  simp only [values_teams]
  exact jsSort_perm _ _

theorem mem_teamboard (rows : List Row) (points : List Int) (e : TeamStanding) :
    e ∈ (computeLeaderboard rows points).teamboard
      ↔ e.id ∈ taggedTeams rows ∧ e = teamStanding (teamAggOf points e.id rows) := by
  rw [(teamboard_perm rows points).mem_iff]
  unfold teamRecords
  simp only [List.mem_map, JSSet.mem_ofList]
  constructor
  · rintro ⟨a, ⟨t, ht, hta⟩, hae⟩
    have hid : e.id = t := by rw [← hae, ← hta]; rfl
    refine ⟨by rw [hid]; exact ht, ?_⟩
    rw [hid, hta, hae]
  · rintro ⟨ht, he⟩
    exact ⟨_, ⟨e.id, ht, rfl⟩, he.symm⟩

theorem teamboard_ids (rows : List Row) (points : List Int) :
    ((computeLeaderboard rows points).teamboard.map fun e => e.id).Perm
      (JSSet.ofList (taggedTeams rows)) := by
  have h := (teamboard_perm rows points).map (fun e => e.id)
  refine h.trans ?_
  unfold teamRecords
  rw [List.map_map, List.map_map]
  have : (((fun e : TeamStanding => e.id) ∘ teamStanding) ∘ fun t => teamAggOf points t rows)
      = id := by
    funext t; rfl
  rw [this, List.map_id]

theorem foldl_teamStep_filter (points : List Int) (rows : List Row) (m : JSMap Int TeamAgg) :
    (rows.filter fun r => r.team_id.isSome).foldl (teamStep points) m
      = rows.foldl (teamStep points) m := by
  induction rows generalizing m with
  | nil => rfl
  | cons r rest ih =>
    cases ht : r.team_id with
    | none =>
      have hstep : teamStep points m r = m := by
        apply teamStep_of_not_truthy
        rw [ht]; simp [truthy]
      simp [List.filter, ht, hstep, ih]
    | some t => simp [List.filter, ht, ih]

theorem teamboard_filter (rows : List Row) (points : List Int) :
    (computeLeaderboard (rows.filter fun r => r.team_id.isSome) points).teamboard
      = (computeLeaderboard rows points).teamboard := by
  unfold computeLeaderboard
  simp only [aggregate_teams, foldl_teamStep_filter]

theorem totalPoints_of_mem_teamboard (rows : List Row) (points : List Int)
    (e : TeamStanding) (he : e ∈ (computeLeaderboard rows points).teamboard) :
    e.totalPoints = runningTotal points (rowsOfTeam e.id rows) := by
  have h := ((mem_teamboard rows points e).1 he).2
  rw [h]; rfl

/-- C3, as amended: when every non-null team id of the rows is positive, each
team with a row has exactly one team standing, whose `totalPoints` is the sum of
`pointsForPlace` over exactly the rows tagged with that team whenever the
absolute values of those points sum to at most `2 ^ 53`, the range in which the
binary64 additions of the loop are exact; rows with a null `team_id` leave the
team standings unchanged, while every driver total sums, within the same range,
the points of all rows of the driver, whatever their `team_id`. -/
theorem C3_team_totals (rows : List Row) (points : List Int)
    (hpos : ∀ r ∈ rows, ∀ t : Int, r.team_id = some t → 0 < t) :
    (∀ e ∈ (computeLeaderboard rows points).teamboard,
        ((rows.filter fun r => r.team_id = some e.id).map
            fun r => (pointsForPlace r.place points).natAbs).sum ≤ 2 ^ 53 →
          e.totalPoints
            = ((rows.filter fun r => r.team_id = some e.id).map
                fun r => pointsForPlace r.place points).sum)
      ∧ ((computeLeaderboard rows points).teamboard.map fun e => e.id).Nodup
      ∧ (∀ t : Int, t ∈ ((computeLeaderboard rows points).teamboard.map fun e => e.id)
          ↔ ∃ r ∈ rows, r.team_id = some t)
      ∧ (computeLeaderboard (rows.filter fun r => r.team_id.isSome) points).teamboard
          = (computeLeaderboard rows points).teamboard
      ∧ (∀ s ∈ (computeLeaderboard rows points).leaderboard,
          ((rows.filter fun r => r.driver_id = s.id).map
              fun r => (pointsForPlace r.place points).natAbs).sum ≤ 2 ^ 53 →
            s.totalPoints
              = ((rows.filter fun r => r.driver_id = s.id).map
                  fun r => pointsForPlace r.place points).sum) := by
  refine ⟨?_, ?_, ?_, teamboard_filter rows points, ?_⟩
  · intro e he
    have h1 := totalPoints_of_mem_teamboard rows points e he
    intro hb
    rw [h1]
    exact runningTotal_eq_sumPoints points _ hb
  · exact (teamboard_ids rows points).nodup_iff.2 (JSSet.nodup_ofList _)
  · intro t
    rw [(teamboard_ids rows points).mem_iff, JSSet.mem_ofList, mem_taggedTeams]
    constructor
    · exact fun h => h.2
    · rintro ⟨r, hr, ht⟩
      have := hpos r hr t ht
      exact ⟨by omega, r, hr, ht⟩
  · intro s hs
    have h1 := (totalPoints_of_mem_leaderboard rows points s hs).1
    intro hb
    rw [h1]
    exact runningTotal_eq_sumPoints points _ hb

/-- C3 at three rows of two drivers, one of them without a team: the
hypotheses hold and team 10 totals 25 + 15. -/
theorem C3_team_totals_witness :
    (∀ r ∈ mixedTeamRows, ∀ t : Int, r.team_id = some t → 0 < t)
      ∧ mixedTeamStanding ∈ (computeLeaderboard mixedTeamRows [25, 18, 15]).teamboard
      ∧ ((mixedTeamRows.filter fun r => r.team_id = some mixedTeamStanding.id).map
            fun r => (pointsForPlace r.place [25, 18, 15]).natAbs).sum ≤ 2 ^ 53
      ∧ mixedTeamStanding.totalPoints
          = ((mixedTeamRows.filter fun r => r.team_id = some mixedTeamStanding.id).map
              fun r => pointsForPlace r.place [25, 18, 15]).sum :=
  have h : ∀ r ∈ mixedTeamRows, ∀ t : Int, r.team_id = some t → 0 < t := by
    intro r hr t ht
    simp only [mixedTeamRows, List.mem_cons, List.mem_singleton, List.not_mem_nil, or_false] at hr
    rcases hr with h | h | h <;> subst h <;> simp [sampleRow] at ht <;> omega
  have hmem : mixedTeamStanding ∈ (computeLeaderboard mixedTeamRows [25, 18, 15]).teamboard := by
    decide
  have hb : ((mixedTeamRows.filter fun r => r.team_id = some mixedTeamStanding.id).map
      fun r => (pointsForPlace r.place [25, 18, 15]).natAbs).sum ≤ 2 ^ 53 := by
    decide
  ⟨h, hmem, hb, (C3_team_totals mixedTeamRows [25, 18, 15] h).1 mixedTeamStanding hmem hb⟩

/-- C3 fails as stated: under the table `[2^53, 1, 1]` team 10 with rows at
the places 1 and 2 gets `totalPoints = 2^53`, while the points of those rows
sum to `2^53 + 1`; the team ids of the rows are positive. -/
theorem C3_counterexample_rounded_total :
    (hugeRows.map fun r => r.team_id) = [some 10, some 10]
      ∧ ((computeLeaderboard hugeRows hugeTable).teamboard.map
          fun e => (e.id, e.totalPoints)) = [(10, 9007199254740992)]
      ∧ ((hugeRows.filter fun r => r.team_id = some 10).map
          fun r => pointsForPlace r.place hugeTable).sum = 9007199254740993 := by
  decide

/-! ## Order of the standings -/

theorem sorted_jsSort {α : Type} (cmp : α → α → Int)
    (htotal : ∀ a b, cmp a b ≤ 0 ∨ cmp b a ≤ 0)
    (htrans : ∀ a b c, cmp a b ≤ 0 → cmp b c ≤ 0 → cmp a c ≤ 0) (l : List α) :
    List.Sorted (fun a b => cmp a b ≤ 0) (jsSort cmp l) := by
  haveI : IsTotal α (fun a b => cmp a b ≤ 0) := ⟨htotal⟩
  haveI : IsTrans α (fun a b => cmp a b ≤ 0) := ⟨htrans⟩
  exact List.sorted_insertionSort _ l

theorem compareDrivers_le_iff (a b : DriverStanding) :
    compareDrivers a b ≤ 0
      ↔ a.totalPoints > b.totalPoints
        ∨ (a.totalPoints = b.totalPoints ∧ a.resultsCount ≥ b.resultsCount) := by
  unfold compareDrivers
  split
  · rename_i h
    constructor
    · intro h1; left; omega
    · rintro (h1 | ⟨h1, _⟩)
      · omega
      · exact absurd h1.symm h
  · rename_i h
    have h2 : b.totalPoints = a.totalPoints := not_not.1 h
    constructor
    · intro h1; right; exact ⟨h2.symm, by omega⟩
    · rintro (h1 | ⟨_, h1⟩)
      · omega
      · omega

theorem sorted_leaderboard (rows : List Row) (points : List Int) :
    List.Sorted (fun a b => compareDrivers a b ≤ 0)
      (computeLeaderboard rows points).leaderboard := by
  unfold computeLeaderboard
  apply sorted_jsSort
  · intro a b
    simp only [compareDrivers_le_iff]
    omega
  · intro a b c
    simp only [compareDrivers_le_iff]
    omega

/-- C5: in the driver standings every adjacent pair `(a, b)` has
`a.totalPoints > b.totalPoints`, or equal points and
`a.resultsCount ≥ b.resultsCount`. -/
theorem C5_leaderboard_sorted (rows : List Row) (points : List Int) :
    List.Chain'
      (fun a b : DriverStanding =>
        a.totalPoints > b.totalPoints
          ∨ (a.totalPoints = b.totalPoints ∧ a.resultsCount ≥ b.resultsCount))
      (computeLeaderboard rows points).leaderboard := by
  have h := (sorted_leaderboard rows points).chain'
  exact h.imp fun a b hab => (compareDrivers_le_iff a b).1 hab

/-- C6: the team standings are a permutation of the standings of the per-team
records, and every adjacent pair `(a, b)` has `a.totalPoints ≥ b.totalPoints`. -/
theorem C6_teamboard_sorted (rows : List Row) (points : List Int) :
    (computeLeaderboard rows points).teamboard.Perm
        ((JSMap.values (aggregate points rows).teams).map teamStanding)
      ∧ List.Chain' (fun a b : TeamStanding => a.totalPoints ≥ b.totalPoints)
          (computeLeaderboard rows points).teamboard := by
  constructor
  · exact jsSort_perm _ _
  · have h : List.Sorted (fun a b => compareTeams a b ≤ 0)
        (computeLeaderboard rows points).teamboard := by
      unfold computeLeaderboard
      apply sorted_jsSort
      · intro a b; unfold compareTeams; omega
      · intro a b c; unfold compareTeams; omega
    exact h.chain'.imp fun a b hab => by unfold compareTeams at hab; omega

/-- C7: the `driversCount` of each team standing is the number of distinct
driver ids among the rows tagged with that team. -/
theorem C7_driversCount_distinct (rows : List Row) (points : List Int) :
    ∀ e ∈ (computeLeaderboard rows points).teamboard,
      e.driversCount
        = ((rows.filter fun r => r.team_id = some e.id).map
            fun r => r.driver_id).toFinset.card := by
  intro e he
  have h := ((mem_teamboard rows points e).1 he).2
  rw [h]
  exact JSSet.size_ofList _

/-! ## The `teamHits` map of a driver -/

theorem hitTeam_eq (hits : JSMap Int TeamHit) (tid : Int) (team_name : Option String) :
    hitTeam hits tid team_name = JSMap.set hits tid (nextHit team_name (JSMap.get hits tid)) := by
  unfold hitTeam nextHit
  cases JSMap.get hits tid <;> rfl

theorem bumpHits_of_not_truthy (r : Row) (hits : JSMap Int TeamHit)
    (h : ¬ truthy r.team_id = true) : bumpHits r hits = hits := by
  unfold bumpHits
  cases ht : r.team_id with
  | none => rfl
  | some t => simp [← ht, h]

theorem bumpHits_of_truthy (r : Row) (hits : JSMap Int TeamHit) (t : Int)
    (ht : r.team_id = some t) (h0 : t ≠ 0) :
    bumpHits r hits = JSMap.set hits t (nextHit r.team_name (JSMap.get hits t)) := by
  unfold bumpHits
  have : truthy (some t) = true := (truthy_some t).2 h0
  simp [ht, this, hitTeam_eq]

theorem keys_hits (rows : List Row) :
    JSMap.keys (hitsOf rows) = JSSet.ofList (taggedTeams rows) := by
  induction rows using List.reverseRecOn with
  | nil => rfl
  | append_singleton l r ih =>
    rw [hitsOf_append, taggedTeams_append]
    by_cases htr : truthy r.team_id = true
    · cases ht : r.team_id with
      | none => rw [ht] at htr; cases htr
      | some t =>
        have h0 : t ≠ 0 := (truthy_some t).1 (ht ▸ htr)
        rw [bumpHits_of_truthy r _ t ht h0, JSMap.keys_set, ih]
        have : truthy (some t) = true := ht ▸ htr
        simp only [this, if_true, Option.toList]
        rw [JSSet.ofList_append]
        rfl
    · rw [bumpHits_of_not_truthy r _ htr, ih]
      simp [htr]

theorem get_hits (rows : List Row) (t : Int) :
    JSMap.get (hitsOf rows) t
      = if t ∈ taggedTeams rows then some (hitOf t rows) else none := by
  induction rows using List.reverseRecOn with
  | nil => simp [JSMap.get, taggedTeams, hitsOf]
  | append_singleton l r ih =>
    rw [hitsOf_append]
    by_cases htag : r.team_id = some t ∧ t ≠ 0
    · obtain ⟨ht, h0⟩ := htag
      have hmem : t ∈ taggedTeams (l ++ [r]) :=
        (mem_taggedTeams _ t).2 ⟨h0, r, by simp, ht⟩
      rw [bumpHits_of_truthy r _ t ht h0, JSMap.get_set_self, if_pos hmem, ih]
      have hrows : rowsOfTeam t (l ++ [r]) = rowsOfTeam t l ++ [r] := by
        rw [rowsOfTeam_append, if_pos ht]
      by_cases hin : t ∈ taggedTeams l
      · obtain ⟨_, x, hx, hxt⟩ := (mem_taggedTeams l t).1 hin
        have hxm : x ∈ rowsOfTeam t l := by simp [rowsOfTeam, hx, hxt]
        rw [if_pos hin]
        simp only [nextHit, hitOf, hrows, List.length_append, List.length_singleton,
          Option.some.injEq, TeamHit.mk.injEq, and_true]
        cases hl : rowsOfTeam t l with
        | nil => rw [hl] at hxm; cases hxm
        | cons a tl => simp
      · have he : rowsOfTeam t l = [] := by
          simp only [rowsOfTeam, List.filter_eq_nil_iff]
          intro x hx hxt
          exact hin ((mem_taggedTeams l t).2 ⟨h0, x, hx, by simpa using hxt⟩)
        rw [if_neg hin]
        simp [nextHit, hitOf, hrows, he]
    · have hmem : t ∈ taggedTeams (l ++ [r]) ↔ t ∈ taggedTeams l := by
        rw [mem_taggedTeams, mem_taggedTeams]
        constructor
        · rintro ⟨h0, x, hx, hxt⟩
          rcases List.mem_append.1 hx with h | h
          · exact ⟨h0, x, h, hxt⟩
          · rw [List.mem_singleton] at h
            exact absurd ⟨h ▸ hxt, h0⟩ htag
        · rintro ⟨h0, x, hx, hxt⟩
          exact ⟨h0, x, List.mem_append_left _ hx, hxt⟩
      have hstep : JSMap.get (bumpHits r (hitsOf l)) t = JSMap.get (hitsOf l) t := by
        by_cases htr : truthy r.team_id = true
        · cases ht : r.team_id with
          | none => rw [ht] at htr; cases htr
          | some t2 =>
            have h0 : t2 ≠ 0 := (truthy_some t2).1 (ht ▸ htr)
            have hne : t ≠ t2 := by
              intro e
              exact htag ⟨by rw [ht, e], by rw [e]; exact h0⟩
            rw [bumpHits_of_truthy r _ t2 ht h0, JSMap.get_set_ne _ _ _ _ hne]
        · rw [bumpHits_of_not_truthy r _ htr]
      rw [hstep, ih]
      by_cases hin : t ∈ taggedTeams l
      · have h0 : t ≠ 0 := ((mem_taggedTeams l t).1 hin).1
        have hrt : ¬ r.team_id = some t := fun e => htag ⟨e, h0⟩
        rw [if_pos hin, if_pos (hmem.2 hin)]
        simp only [hitOf, rowsOfTeam_append, if_neg hrt, List.append_nil]
      · rw [if_neg hin, if_neg (fun h => hin (hmem.1 h))]

theorem JSMap.eq_map_keys {κ ν : Type} [DecidableEq κ] (m : JSMap κ ν) (f : κ → ν)
    (hnd : (JSMap.keys m).Nodup) (hget : ∀ k ∈ JSMap.keys m, JSMap.get m k = some (f k)) :
    m = (JSMap.keys m).map fun k => (k, f k) := by
  induction m with
  | nil => rfl
  | cons e rest ih =>
    obtain ⟨k1, v1⟩ := e
    simp only [JSMap.keys, List.map_cons, List.nodup_cons] at hnd
    have h1 : v1 = f k1 := by
      have := hget k1 (by simp [JSMap.keys])
      simpa [JSMap.get] using this
    have hrest : ∀ k ∈ JSMap.keys rest, JSMap.get rest k = some (f k) := by
      intro k hk
      have hne : ¬ k1 = k := fun e => hnd.1 (e ▸ hk)
      have := hget k (by simp only [JSMap.keys, List.map_cons, List.mem_cons]; exact Or.inr hk)
      simpa [JSMap.get, hne] using this
    have := ih hnd.2 hrest
    simp only [JSMap.keys] at this ⊢
    rw [List.map_cons, List.map_cons, ← this, h1]

/-- The entries of the `teamHits` map of a driver, in first-seen order of the teams. -/
theorem hitsOf_eq (rows : List Row) :
    hitsOf rows = (JSSet.ofList (taggedTeams rows)).map fun t => (t, hitOf t rows) := by
  have h := JSMap.eq_map_keys (hitsOf rows) (fun t => hitOf t rows)
    (by rw [keys_hits]; exact JSSet.nodup_ofList _)
    (by
      intro k hk
      rw [keys_hits, JSSet.mem_ofList] at hk
      rw [get_hits, if_pos hk])
  rw [keys_hits] at h
  exact h

/-! ## The primary team -/

theorem bestTeam_eq (hits : JSMap Int TeamHit) :
    bestTeam hits = hits.foldl bestStep { bestTeamId := none, bestTeamName := none, bestCount := 0 } :=
  rfl

theorem foldl_bestStep_keys (g : Int → TeamHit) (l : List Int) (b0 : Best) :
    ((l.map fun t => (t, g t)).foldl bestStep b0 = b0 ∧ ∀ x ∈ l, (g x).count ≤ b0.bestCount)
      ∨ ∃ pre t post, l = pre ++ t :: post
          ∧ (l.map fun t => (t, g t)).foldl bestStep b0
              = { bestTeamId := some t, bestTeamName := (g t).name, bestCount := (g t).count }
          ∧ b0.bestCount < (g t).count
          ∧ (∀ x ∈ pre, (g x).count < (g t).count)
          ∧ (∀ x ∈ post, (g x).count ≤ (g t).count) := by
  induction l generalizing b0 with
  | nil => left; simp
  | cons a rest ih =>
    rw [List.map_cons, List.foldl_cons]
    by_cases ha : (g a).count > b0.bestCount
    · have hb : bestStep b0 (a, g a)
          = { bestTeamId := some a, bestTeamName := (g a).name, bestCount := (g a).count } := by
        simp [bestStep, ha]
      right
      rcases ih (bestStep b0 (a, g a)) with ⟨h1, h2⟩ | ⟨pre, e, post, h1, h2, h3, h4, h5⟩
      · refine ⟨[], a, rest, rfl, by rw [h1, hb], ha, by simp, ?_⟩
        intro x hx
        have := h2 x hx
        rw [hb] at this
        exact this
      · rw [hb] at h3
        simp only at h3
        refine ⟨a :: pre, e, post, by rw [h1]; rfl, h2, by omega, ?_, h5⟩
        intro x hx
        rcases List.mem_cons.1 hx with h | h
        · rw [h]; exact h3
        · exact h4 x h
    · have hb : bestStep b0 (a, g a) = b0 := by simp [bestStep, ha]
      rw [hb]
      rcases ih b0 with ⟨h1, h2⟩ | ⟨pre, e, post, h1, h2, h3, h4, h5⟩
      · left
        refine ⟨h1, ?_⟩
        intro x hx
        rcases List.mem_cons.1 hx with h | h
        · rw [h]; omega
        · exact h2 x h
      · right
        refine ⟨a :: pre, e, post, by rw [h1]; rfl, h2, h3, ?_, h5⟩
        intro x hx
        rcases List.mem_cons.1 hx with h | h
        · rw [h]; omega
        · exact h4 x h

/-- The set built from a list keeps the order of first occurrences. -/
theorem JSSet.indexOf_ofList (l : List Int) (x y : Int) (hx : x ∈ l) (hy : y ∈ l) :
    List.indexOf x (JSSet.ofList l) < List.indexOf y (JSSet.ofList l)
      ↔ List.indexOf x l < List.indexOf y l := by
  induction l using List.reverseRecOn with
  | nil => cases hx
  | append_singleton l a ih =>
    rw [JSSet.ofList_append]
    by_cases ha : a ∈ l
    · have hx1 : x ∈ l := by
        rcases List.mem_append.1 hx with h | h
        · exact h
        · rw [List.mem_singleton.1 h]; exact ha
      have hy1 : y ∈ l := by
        rcases List.mem_append.1 hy with h | h
        · exact h
        · rw [List.mem_singleton.1 h]; exact ha
      have : JSSet.add (JSSet.ofList l) a = JSSet.ofList l := by
        unfold JSSet.add
        rw [if_pos ((JSSet.mem_ofList l a).2 ha)]
      rw [this, List.indexOf_append_of_mem hx1, List.indexOf_append_of_mem hy1]
      exact ih hx1 hy1
    · have hadd : JSSet.add (JSSet.ofList l) a = JSSet.ofList l ++ [a] := by
        unfold JSSet.add
        rw [if_neg (fun h => ha ((JSSet.mem_ofList l a).1 h))]
      rw [hadd]
      have key : ∀ z, z ∈ l ++ [a] →
          (z ∈ l ∧ List.indexOf z (JSSet.ofList l ++ [a]) = List.indexOf z (JSSet.ofList l)
            ∧ List.indexOf z (l ++ [a]) = List.indexOf z l)
          ∨ (z ∉ l ∧ List.indexOf z (JSSet.ofList l ++ [a]) = (JSSet.ofList l).length
            ∧ List.indexOf z (l ++ [a]) = l.length) := by
        intro z hz
        by_cases hzl : z ∈ l
        · left
          exact ⟨hzl, List.indexOf_append_of_mem ((JSSet.mem_ofList l z).2 hzl),
            List.indexOf_append_of_mem hzl⟩
        · right
          have hza : z = a := by
            rcases List.mem_append.1 hz with h | h
            · exact absurd h hzl
            · exact List.mem_singleton.1 h
          have h1 : z ∉ JSSet.ofList l := fun h => hzl ((JSSet.mem_ofList l z).1 h)
          refine ⟨hzl, ?_, ?_⟩
          · rw [List.indexOf_append_of_not_mem h1, hza]; simp
          · rw [List.indexOf_append_of_not_mem hzl, hza]; simp
      rcases key x hx with ⟨hxl, e1, e2⟩ | ⟨hxl, e1, e2⟩ <;>
        rcases key y hy with ⟨hyl, f1, f2⟩ | ⟨hyl, f1, f2⟩
      · rw [e1, e2, f1, f2]; exact ih hxl hyl
      · rw [e1, e2, f1, f2]
        have h1 : List.indexOf x (JSSet.ofList l) < (JSSet.ofList l).length :=
          List.indexOf_lt_length.2 ((JSSet.mem_ofList l x).2 hxl)
        have h2 : List.indexOf x l < l.length := List.indexOf_lt_length.2 hxl
        exact ⟨fun _ => h2, fun _ => h1⟩
      · rw [e1, e2, f1, f2]
        have h1 : List.indexOf y (JSSet.ofList l) < (JSSet.ofList l).length :=
          List.indexOf_lt_length.2 ((JSSet.mem_ofList l y).2 hyl)
        have h2 : List.indexOf y l < l.length := List.indexOf_lt_length.2 hyl
        constructor <;> intro h <;> omega
      · rw [e1, e2, f1, f2]
        constructor <;> intro h <;> omega

/-- In a duplicate-free list, what follows an element comes later. -/
theorem indexOf_lt_of_split (pre post : List Int) (t y : Int)
    (hnd : (pre ++ t :: post).Nodup) (hy : y ∈ post) :
    List.indexOf t (pre ++ t :: post) < List.indexOf y (pre ++ t :: post) := by
  rw [List.nodup_append] at hnd
  obtain ⟨_, h2, h3⟩ := hnd
  have htpre : t ∉ pre := fun h => h3 h (List.mem_cons_self _ _)
  have hypre : y ∉ pre := fun h => h3 h (List.mem_cons_of_mem _ hy)
  have hyt : y ≠ t := by
    intro e
    rw [List.nodup_cons] at h2
    exact h2.1 (e ▸ hy)
  rw [List.indexOf_append_of_not_mem htpre, List.indexOf_append_of_not_mem hypre,
    List.indexOf_cons_self, List.indexOf_cons_ne _ (Ne.symm hyt)]
  omega

theorem count_pos_of_mem_taggedTeams (rows : List Row) (t : Int) (h : t ∈ taggedTeams rows) :
    0 < (hitOf t rows).count := by
  obtain ⟨_, x, hx, hxt⟩ := (mem_taggedTeams rows t).1 h
  have hxm : x ∈ rowsOfTeam t rows := by simp [rowsOfTeam, hx, hxt]
  exact List.length_pos_of_mem hxm

theorem count_zero_of_not_mem_taggedTeams (rows : List Row) (t : Int) (h0 : t ≠ 0)
    (h : t ∉ taggedTeams rows) : (hitOf t rows).count = 0 := by
  have he : rowsOfTeam t rows = [] := by
    simp only [rowsOfTeam, List.filter_eq_nil_iff]
    intro x hx hxt
    exact h ((mem_taggedTeams rows t).2 ⟨h0, x, hx, by simpa using hxt⟩)
  simp [hitOf, he]

/-- The outcome of the primary-team loop on the `teamHits` of a driver, in
terms of the rows of that driver. -/
theorem bestTeam_hitsOf (rows : List Row) :
    (bestTeam (hitsOf rows)
        = { bestTeamId := none, bestTeamName := none, bestCount := 0 }
      ∧ taggedTeams rows = [])
    ∨ ∃ t, t ∈ taggedTeams rows
        ∧ bestTeam (hitsOf rows)
            = { bestTeamId := some t, bestTeamName := (hitOf t rows).name,
                bestCount := (hitOf t rows).count }
        ∧ (∀ u, u ≠ 0 → (hitOf u rows).count ≤ (hitOf t rows).count)
        ∧ (∀ u, u ≠ 0 → u ≠ t → (hitOf u rows).count = (hitOf t rows).count →
            List.indexOf t (taggedTeams rows) < List.indexOf u (taggedTeams rows)) := by
  rw [bestTeam_eq, hitsOf_eq]
  rcases foldl_bestStep_keys (fun t => hitOf t rows) (JSSet.ofList (taggedTeams rows))
      { bestTeamId := none, bestTeamName := none, bestCount := 0 } with
    ⟨h1, h2⟩ | ⟨pre, t, post, h1, h2, h3, h4, h5⟩
  · left
    refine ⟨h1, ?_⟩
    cases hT : taggedTeams rows with
    | nil => rfl
    | cons a tl =>
      have ha : a ∈ taggedTeams rows := by rw [hT]; exact List.mem_cons_self _ _
      have := h2 a ((JSSet.mem_ofList _ a).2 ha)
      have hpos := count_pos_of_mem_taggedTeams rows a ha
      simp only at this
      omega
  · right
    have htS : t ∈ JSSet.ofList (taggedTeams rows) := by rw [h1]; simp
    have htT : t ∈ taggedTeams rows := (JSSet.mem_ofList _ t).1 htS
    have hnd : (pre ++ t :: post).Nodup := h1 ▸ JSSet.nodup_ofList (taggedTeams rows)
    refine ⟨t, htT, h2, ?_, ?_⟩
    · intro u hu0
      by_cases huT : u ∈ taggedTeams rows
      · have huS : u ∈ pre ++ t :: post := h1 ▸ (JSSet.mem_ofList _ u).2 huT
        rcases List.mem_append.1 huS with h | h
        · exact Nat.le_of_lt (h4 u h)
        · rcases List.mem_cons.1 h with h | h
          · rw [h]
          · exact h5 u h
      · rw [count_zero_of_not_mem_taggedTeams rows u hu0 huT]; omega
    · intro u hu0 hut hcount
      have huT : u ∈ taggedTeams rows := by
        by_contra hn
        have := count_zero_of_not_mem_taggedTeams rows u hu0 hn
        simp only at h3
        omega
      have huS : u ∈ pre ++ t :: post := h1 ▸ (JSSet.mem_ofList _ u).2 huT
      have hupost : u ∈ post := by
        rcases List.mem_append.1 huS with h | h
        · have := h4 u h
          omega
        · rcases List.mem_cons.1 h with h | h
          · exact absurd h hut
          · exact h
      rw [← JSSet.indexOf_ofList _ t u htT huT, h1]
      exact indexOf_lt_of_split pre post t u hnd hupost

/-- C4, as amended: the primary team of a driver standing is null exactly when
no row of the driver has a `team_id` other than null and 0; otherwise it is a
team of such a row with the highest number of the driver rows tagged with it,
among the teams that share that number the one whose first row comes first, and
its name is the `team_name` of the first of those rows.  With hits A:3, B:5,
C:5 in that order the loop picks B. -/
theorem C4_primary_team (rows : List Row) (points : List Int) :
    (∀ s ∈ (computeLeaderboard rows points).leaderboard,
      (s.teamId = none
        ↔ ∀ r ∈ rows, r.driver_id = s.id → r.team_id = none ∨ r.team_id = some 0)
      ∧ (s.teamId = none → s.teamName = none)
      ∧ ∀ t : Int, s.teamId = some t →
          t ≠ 0
          ∧ (∃ r ∈ rows, r.driver_id = s.id ∧ r.team_id = some t)
          ∧ s.teamName
              = (((rows.filter fun r => r.driver_id = s.id).filter
                  fun r => r.team_id = some t).head?.bind fun r => r.team_name)
          ∧ (∀ u : Int, u ≠ 0 →
              ((rows.filter fun r => r.driver_id = s.id).filter
                  fun r => r.team_id = some u).length
                ≤ ((rows.filter fun r => r.driver_id = s.id).filter
                  fun r => r.team_id = some t).length)
          ∧ (∀ u : Int, u ≠ 0 → u ≠ t →
              ((rows.filter fun r => r.driver_id = s.id).filter
                  fun r => r.team_id = some u).length
                = ((rows.filter fun r => r.driver_id = s.id).filter
                  fun r => r.team_id = some t).length →
              List.indexOf t
                  ((rows.filter fun r => r.driver_id = s.id).filterMap
                    fun r => if truthy r.team_id then r.team_id else none)
                < List.indexOf u
                  ((rows.filter fun r => r.driver_id = s.id).filterMap
                    fun r => if truthy r.team_id then r.team_id else none)))
      ∧ bestTeam [(1, { name := some "A", count := 3 }), (2, { name := some "B", count := 5 }),
            (3, { name := some "C", count := 5 })]
          = { bestTeamId := some 2, bestTeamName := some "B", bestCount := 5 } := by
  refine ⟨?_, by decide⟩
  intro s hs
  have hs2 := ((mem_leaderboard rows points s).1 hs).2
  have hid : s.teamId = (bestTeam (hitsOf (rowsOfDriver s.id rows))).bestTeamId := by
    rw [hs2]; rfl
  have hname : s.teamName = (bestTeam (hitsOf (rowsOfDriver s.id rows))).bestTeamName := by
    rw [hs2]; rfl
  have hnone : taggedTeams (rowsOfDriver s.id rows) = []
      ↔ ∀ r ∈ rows, r.driver_id = s.id → r.team_id = none ∨ r.team_id = some 0 := by
    constructor
    · intro hT r hr hrd
      cases ht : r.team_id with
      | none => left; rfl
      | some t =>
        right
        by_contra hne
        have h0 : t ≠ 0 := fun e => hne (by rw [e])
        have : t ∈ taggedTeams (rowsOfDriver s.id rows) :=
          (mem_taggedTeams _ t).2 ⟨h0, r, by simp [rowsOfDriver, hr, hrd], ht⟩
        rw [hT] at this
        cases this
    · intro hall
      cases hT : taggedTeams (rowsOfDriver s.id rows) with
      | nil => rfl
      | cons a tl =>
        have ha : a ∈ taggedTeams (rowsOfDriver s.id rows) := by
          rw [hT]; exact List.mem_cons_self _ _
        obtain ⟨h0, r, hr, hrt⟩ := (mem_taggedTeams _ a).1 ha
        have hr2 : r ∈ rows ∧ r.driver_id = s.id := by
          simpa [rowsOfDriver] using hr
        rcases hall r hr2.1 hr2.2 with h | h
        · rw [h] at hrt; cases hrt
        · rw [h] at hrt
          exact absurd (Option.some.inj hrt).symm h0
  rcases bestTeam_hitsOf (rowsOfDriver s.id rows) with ⟨hb, hT⟩ | ⟨t, htT, hb, hmax, hfirst⟩
  · refine ⟨?_, ?_, ?_⟩
    · rw [hid, hb]
      exact ⟨fun _ => hnone.1 hT, fun _ => rfl⟩
    · intro _; rw [hname, hb]
    · intro t ht
      rw [hid, hb] at ht
      cases ht
  · have hsome : s.teamId = some t := by rw [hid, hb]
    refine ⟨?_, ?_, ?_⟩
    · rw [hsome]
      constructor
      · intro h; cases h
      · intro hall
        rw [hnone.2 hall] at htT
        cases htT
    · intro h; rw [hsome] at h; cases h
    · intro t2 ht2
      have ht : t2 = t := by
        rw [hsome] at ht2
        exact (Option.some.inj ht2).symm
      subst ht
      obtain ⟨h0, r, hr, hrt⟩ := (mem_taggedTeams _ t2).1 htT
      have hr2 : r ∈ rows ∧ r.driver_id = s.id := by
        simpa [rowsOfDriver] using hr
      refine ⟨h0, ⟨r, hr2.1, hr2.2, hrt⟩, ?_, hmax, hfirst⟩
      rw [hname, hb]
      rfl

/-- C4 at the scenario of the specification: driver 1 has one row with team
10 and two with team 20, and its primary team is 20. -/
theorem C4_primary_team_witness :
    scenarioStanding ∈ (computeLeaderboard scenarioRows [25, 18, 15]).leaderboard
      ∧ (20 : Int) ≠ 0
      ∧ ((scenarioRows.filter fun r => r.driver_id = 1).filter
            fun r => r.team_id = some 10).length
          ≤ ((scenarioRows.filter fun r => r.driver_id = 1).filter
            fun r => r.team_id = some 20).length :=
  have hmem : scenarioStanding ∈ (computeLeaderboard scenarioRows [25, 18, 15]).leaderboard := by
    decide
  have h := ((C4_primary_team scenarioRows [25, 18, 15]).1 scenarioStanding hmem).2.2 20 rfl
  ⟨hmem, h.1, h.2.2.2.1 10 (by decide)⟩

/-- C4 fails as stated: a driver whose only row has the non-null team id 0 has
a null primary team. -/
theorem C4_counterexample_team_id_zero :
    (sampleRow 1 1 (some 0) 1).team_id = some 0
      ∧ ((computeLeaderboard [sampleRow 1 1 (some 0) 1] [25, 18, 15]).leaderboard.map
          fun s => (s.id, s.teamId, s.teamName)) = [(1, none, none)] := by
  decide

/-- C7 at three rows of team 10, two of driver 1 and one of driver 2: the
team counts 2 drivers. -/
theorem C7_driversCount_distinct_witness :
    sharedTeamStanding ∈ (computeLeaderboard sharedTeamRows [25, 18, 15]).teamboard
      ∧ sharedTeamStanding.driversCount
          = ((sharedTeamRows.filter fun r => r.team_id = some sharedTeamStanding.id).map
              fun r => r.driver_id).toFinset.card :=
  have hmem : sharedTeamStanding
      ∈ (computeLeaderboard sharedTeamRows [25, 18, 15]).teamboard := by
    decide
  ⟨hmem, C7_driversCount_distinct sharedTeamRows [25, 18, 15] sharedTeamStanding hmem⟩

/-! ## Last team and driver details -/

theorem orderByIdDesc_perm (rows : List Row) : (orderByIdDesc rows).Perm rows :=
  List.perm_insertionSort _ rows

theorem orderByIdDesc_sorted (rows : List Row) :
    List.Sorted (fun a b : Row => b.result_id ≤ a.result_id) (orderByIdDesc rows) := by
  haveI : IsTotal Row (fun a b : Row => b.result_id ≤ a.result_id) :=
    ⟨fun a b => by omega⟩
  haveI : IsTrans Row (fun a b : Row => b.result_id ≤ a.result_id) :=
    ⟨fun a b c h1 h2 => by omega⟩
  exact List.sorted_insertionSort _ rows

theorem orderByIdAsc_perm (rows : List Row) : (orderByIdAsc rows).Perm rows :=
  List.perm_insertionSort _ rows

theorem orderByIdAsc_sorted (rows : List Row) :
    List.Sorted (fun a b : Row => a.result_id ≤ b.result_id) (orderByIdAsc rows) := by
  haveI : IsTotal Row (fun a b : Row => a.result_id ≤ b.result_id) :=
    ⟨fun a b => by omega⟩
  haveI : IsTrans Row (fun a b : Row => a.result_id ≤ b.result_id) :=
    ⟨fun a b c h1 h2 => by omega⟩
  exact List.sorted_insertionSort _ rows

/-- The last-team query returns nothing when the driver has no row, and else
one row of the driver whose id is the greatest among them. -/
theorem lastTeamQuery_spec (table : List Row) (driverId : Int) :
    (lastTeamQuery table driverId = [] ∧ ∀ r ∈ table, r.driver_id ≠ driverId)
      ∨ ∃ r, lastTeamQuery table driverId = [r] ∧ r ∈ table ∧ r.driver_id = driverId
          ∧ ∀ x ∈ table, x.driver_id = driverId → x.result_id ≤ r.result_id := by
  unfold lastTeamQuery
  have hperm := orderByIdDesc_perm (table.filter fun r => r.driver_id = driverId)
  have hsorted := orderByIdDesc_sorted (table.filter fun r => r.driver_id = driverId)
  cases hL : orderByIdDesc (table.filter fun r => r.driver_id = driverId) with
  | nil =>
    left
    refine ⟨rfl, ?_⟩
    intro r hr hrd
    have : r ∈ orderByIdDesc (table.filter fun r => r.driver_id = driverId) :=
      hperm.mem_iff.2 (by simp [hr, hrd])
    rw [hL] at this
    cases this
  | cons r rest =>
    right
    rw [hL] at hperm hsorted
    have hr : r ∈ table.filter fun r => r.driver_id = driverId :=
      hperm.mem_iff.1 (List.mem_cons_self _ _)
    have hr2 : r ∈ table ∧ r.driver_id = driverId := by simpa using hr
    refine ⟨r, rfl, hr2.1, hr2.2, ?_⟩
    intro x hx hxd
    have hx2 : x ∈ r :: rest := hperm.mem_iff.2 (by simp [hx, hxd])
    rcases List.mem_cons.1 hx2 with h | h
    · rw [h]
    · exact List.rel_of_sorted_cons hsorted x h

/-- C8: over rows with distinct ids, the last-team lookup answers null exactly
when no row has the driver id, and otherwise the `resultId`, `teamId` and
`teamName` of the row of the driver with the greatest id (null `teamId` and
`teamName` when that row has none); in the scenario of the specification it
answers team 20 from row 3. -/
theorem C8_lastTeam_max_id (driverId : Int) (table : List Row)
    (hdistinct : (table.map fun r => r.result_id).Nodup) :
    (lastTeam driverId table = none ↔ ∀ r ∈ table, r.driver_id ≠ driverId)
      ∧ (∀ r ∈ table, r.driver_id = driverId →
          (∀ x ∈ table, x.driver_id = driverId → x.result_id ≤ r.result_id) →
          lastTeam driverId table
            = some { resultId := r.result_id, teamId := r.team_id, teamName := r.team_name })
      ∧ lastTeam 1 scenarioRows
          = some { resultId := 3, teamId := some 20, teamName := some "team" } := by
  refine ⟨?_, ?_, by decide⟩
  · unfold lastTeam
    rcases lastTeamQuery_spec table driverId with ⟨h1, h2⟩ | ⟨r, h1, h2, h3, _⟩
    · rw [h1]
      exact ⟨fun _ => h2, fun _ => rfl⟩
    · rw [h1]
      constructor
      · intro h; cases h
      · intro h; exact absurd h3 (h r h2)
  · intro r hr hrd hmax
    unfold lastTeam
    rcases lastTeamQuery_spec table driverId with ⟨_, h2⟩ | ⟨r0, h1, h2, h3, h4⟩
    · exact absurd hrd (h2 r hr)
    · rw [h1]
      have hid : r0.result_id = r.result_id :=
        Int.le_antisymm (hmax r0 h2 h3) (h4 r hr hrd)
      have : r0 = r := List.inj_on_of_nodup_map hdistinct h2 hr hid
      rw [this]

/-- C8 at the scenario of the specification: the ids 1, 2, 3 are distinct and
row 3 is the last row of driver 1. -/
theorem C8_lastTeam_max_id_witness :
    (scenarioRows.map fun r => r.result_id).Nodup
      ∧ (lastTeam 1 scenarioRows = none ↔ ∀ r ∈ scenarioRows, r.driver_id ≠ 1) :=
  have h : (scenarioRows.map fun r => r.result_id).Nodup := by decide
  ⟨h, (C8_lastTeam_max_id 1 scenarioRows h).1⟩

theorem filter_orderedInsert (r : Row → Row → Prop) [DecidableRel r]
    (htrans : ∀ a b c, r a b → r b c → r a c) (p : Row → Bool) (a : Row) (l : List Row)
    (hl : l.Sorted r) :
    (l.orderedInsert r a).filter p
      = if p a = true then (l.filter p).orderedInsert r a else l.filter p := by
  induction l with
  | nil => by_cases hp : p a = true <;> simp [List.orderedInsert, List.filter, hp]
  | cons b rest ih =>
    have hrest : rest.Sorted r := List.Sorted.of_cons hl
    have hb : ∀ x ∈ rest, r b x := List.rel_of_sorted_cons hl
    by_cases hab : r a b
    · rw [List.orderedInsert, if_pos hab]
      by_cases hp : p a = true
      · rw [if_pos hp, List.filter_cons_of_pos hp]
        cases hf : List.filter p (b :: rest) with
        | nil => rfl
        | cons c tl =>
          have hc : c ∈ b :: rest := by
            have : c ∈ List.filter p (b :: rest) := by rw [hf]; exact List.mem_cons_self _ _
            exact (List.mem_filter.1 this).1
          have hac : r a c := by
            rcases List.mem_cons.1 hc with h | h
            · rw [h]; exact hab
            · exact htrans a b c hab (hb c h)
          rw [List.orderedInsert, if_pos hac]
      · rw [if_neg hp, List.filter_cons_of_neg hp]
    · rw [List.orderedInsert, if_neg hab]
      by_cases hpb : p b = true
      · rw [List.filter_cons_of_pos hpb, ih hrest, List.filter_cons_of_pos hpb]
        by_cases hp : p a = true
        · rw [if_pos hp, if_pos hp, List.orderedInsert, if_neg hab]
        · rw [if_neg hp, if_neg hp]
      · rw [List.filter_cons_of_neg hpb, ih hrest, List.filter_cons_of_neg hpb]

/-- Filtering rows commutes with `ORDER BY r.id ASC`. -/
theorem orderByIdAsc_filter (rows : List Row) (p : Row → Bool) :
    orderByIdAsc (rows.filter p) = (orderByIdAsc rows).filter p := by
  induction rows with
  | nil => rfl
  | cons a rest ih =>
    have hs := orderByIdAsc_sorted rest
    have hins : orderByIdAsc (a :: rest)
        = (orderByIdAsc rest).orderedInsert (fun a b => a.result_id ≤ b.result_id) a := rfl
    rw [hins, filter_orderedInsert (fun a b : Row => a.result_id ≤ b.result_id)
      (fun a b c h1 h2 => Int.le_trans h1 h2) p a _ hs]
    by_cases hp : p a = true
    · rw [if_pos hp, List.filter_cons_of_pos hp, ← ih]
      rfl
    · rw [if_neg hp, List.filter_cons_of_neg hp, ih]

/-- C9, as amended: the driver details are the rows of the driver, each once,
by ascending id, each with `points = pointsForPlace(place, table)`; their number
is the `resultsCount` of the driver in the leaderboard, and their points sum to
its `totalPoints` whenever the absolute values of those points sum to at most
`2 ^ 53`, the range in which the binary64 additions of the loop are exact. -/
theorem C9_driver_details (driverId : Int) (table : List Row) (points : List Int) :
    ((driverRowsQuery table driverId).Perm (table.filter fun r => r.driver_id = driverId)
      ∧ driverDetails driverId table points
          = (driverRowsQuery table driverId).map fun r =>
              { id := r.result_id, map := r.map_name, team := r.team_name, place := r.place,
                time_ms := r.time_ms, points := pointsForPlace r.place points })
      ∧ List.Sorted (fun a b : Int => a ≤ b)
          ((driverDetails driverId table points).map fun x => x.id)
      ∧ (∀ x ∈ driverDetails driverId table points,
          x.points = pointsForPlace x.place points)
      ∧ (∀ s ∈ (getLeaderboard table points).leaderboard, s.id = driverId →
          s.resultsCount = (driverDetails driverId table points).length
            ∧ (((driverDetails driverId table points).map fun x => x.points.natAbs).sum
                  ≤ 2 ^ 53 →
                s.totalPoints
                  = ((driverDetails driverId table points).map fun x => x.points).sum)) := by
  refine ⟨⟨orderByIdAsc_perm _, rfl⟩, ?_, ?_, ?_⟩
  · unfold driverDetails driverRowsQuery
    rw [List.map_map]
    exact List.pairwise_map.2 (orderByIdAsc_sorted _)
  · intro x hx
    unfold driverDetails at hx
    obtain ⟨r, _, hrx⟩ := List.mem_map.1 hx
    rw [← hrx]
  · intro s hs hsd
    obtain ⟨h1, h2⟩ := totalPoints_of_mem_leaderboard (orderByIdAsc table) points s hs
    have hrows : rowsOfDriver s.id (orderByIdAsc table) = driverRowsQuery table driverId := by
      unfold driverRowsQuery rowsOfDriver
      rw [hsd, orderByIdAsc_filter]
    rw [hrows] at h1 h2
    have hsum : ((driverDetails driverId table points).map fun x => x.points).sum
        = sumPoints points (driverRowsQuery table driverId) := by
      unfold driverDetails sumPoints
      rw [List.map_map]
      rfl
    have habs : ((driverDetails driverId table points).map fun x => x.points.natAbs).sum
        = absPoints points (driverRowsQuery table driverId) := by
      unfold driverDetails absPoints
      rw [List.map_map]
      rfl
    refine ⟨?_, ?_⟩
    · rw [h2]
      unfold driverDetails
      rw [List.length_map]
    · intro hb
      rw [habs] at hb
      rw [hsum, h1]
      exact runningTotal_eq_sumPoints points _ hb

/-- C9 at the scenario of the specification: the three details of driver 1
carry 25, 15 and 18 points, which sum to its 58 points. -/
theorem C9_driver_details_witness :
    scenarioStanding ∈ (getLeaderboard scenarioRows [25, 18, 15]).leaderboard
      ∧ ((driverDetails 1 scenarioRows [25, 18, 15]).map fun x => x.points.natAbs).sum ≤ 2 ^ 53
      ∧ scenarioStanding.totalPoints
          = ((driverDetails 1 scenarioRows [25, 18, 15]).map fun x => x.points).sum
      ∧ scenarioStanding.resultsCount = (driverDetails 1 scenarioRows [25, 18, 15]).length :=
  have hmem : scenarioStanding ∈ (getLeaderboard scenarioRows [25, 18, 15]).leaderboard := by
    decide
  have hb : ((driverDetails 1 scenarioRows [25, 18, 15]).map fun x => x.points.natAbs).sum
      ≤ 2 ^ 53 := by
    decide
  have h := (C9_driver_details 1 scenarioRows [25, 18, 15]).2.2.2 scenarioStanding hmem rfl
  ⟨hmem, hb, h.2 hb, h.1⟩

/-- C9 fails as stated: under the table `[2^53, 1, 1]` the details of driver 1
carry `2^53` and 1 points, which sum to `2^53 + 1`, while the leaderboard gives
the driver `totalPoints = 2^53`. -/
theorem C9_counterexample_rounded_total :
    ((driverDetails 1 hugeRows hugeTable).map fun x => x.points) = [9007199254740992, 1]
      ∧ ((driverDetails 1 hugeRows hugeTable).map fun x => x.points).sum = 9007199254740993
      ∧ ((getLeaderboard hugeRows hugeTable).leaderboard.map
          fun s => (s.id, s.totalPoints)) = [(1, 9007199254740992)] := by
  decide

/-! ## Updating the points -/

theorem cleanPoints_eq_cleanedSpec (c : List JSVal) : cleanPoints c = cleanedSpec c := by
  unfold cleanPoints cleanedSpec
  rw [List.filterMap_filter, List.filterMap_map]
  congr 1
  funext v
  simp only [Function.comp]
  cases hn : Number v with
  | fin q =>
    by_cases hq : 0 ≤ q.num
    · simp [Number.isFinite, JSNum.geInt, hq, Math.trunc]
    · simp [Number.isFinite, JSNum.geInt, hq]
  | nan => simp [Number.isFinite]
  | posInf => simp [Number.isFinite]
  | negInf => simp [Number.isFinite]

theorem cleanPoints_nonneg (c : List JSVal) : ∀ n ∈ cleanPoints c, 0 ≤ n := by
  intro n hn
  rw [cleanPoints_eq_cleanedSpec] at hn
  unfold cleanedSpec at hn
  obtain ⟨v, _, hv⟩ := List.mem_filterMap.1 hn
  cases hnum : Number v with
  | fin q =>
    rw [hnum] at hv
    by_cases hq : 0 ≤ q.num
    · simp only [hq, if_true, Option.some.injEq] at hv
      rw [← hv]
      exact Int.tdiv_nonneg hq (Int.ofNat_nonneg _)
    · simp [hq] at hv
  | nan => rw [hnum] at hv; cases hv
  | posInf => rw [hnum] at hv; cases hv
  | negInf => rw [hnum] at hv; cases hv

/-- C10, as amended: `setPointsArray` cleans the candidate as the specification
words it (convert, keep the finite values that are at least 0 in order,
truncate), to non-negative integers; it throws `Points array is empty` exactly
when the cleaned array is empty, and then persists nothing; otherwise, when the
settings table accepts the write, it stores the cleaned array under
`points_json` and returns it, and when the write is rejected it fails with the
database error and stores nothing. -/
theorem C10_setPointsArray_outcome (c : List JSVal) (store : SettingsStore) :
    cleanPoints c = cleanedSpec c
      ∧ (∀ n ∈ cleanPoints c, 0 ≤ n)
      ∧ ((setPointsArray c store).1 = .error (.error "Points array is empty")
          ↔ cleanPoints c = [])
      ∧ (cleanPoints c = [] → (setPointsArray c store).2 = store)
      ∧ (∀ t, store = some t → cleanPoints c ≠ [] →
          setPointsArray c store
              = (.ok (cleanPoints c),
                  some (JSMap.set t "points_json" (JSON.stringify (cleanPoints c))))
            ∧ JSMap.get (JSMap.set t "points_json" (JSON.stringify (cleanPoints c)))
                "points_json" = some (JSON.stringify (cleanPoints c)))
      ∧ (store = none → cleanPoints c ≠ [] →
          setPointsArray c store = (.error .queryFailed, none))
      ∧ setPointsArray [] store = (.error (.error "Points array is empty"), store) := by
  refine ⟨cleanPoints_eq_cleanedSpec c, cleanPoints_nonneg c, ?_, ?_, ?_, ?_, rfl⟩
  · unfold setPointsArray
    by_cases h : cleanPoints c = []
    · simp [h]
    · have hlen : ¬ (cleanPoints c).length = 0 := fun e => h (List.length_eq_zero.1 e)
      cases store with
      | none => simp [h, hlen, upsertPoints]
      | some t => simp [h, hlen, upsertPoints]
  · intro h
    unfold setPointsArray
    simp [h]
  · intro t ht h
    have hlen : ¬ (cleanPoints c).length = 0 := fun e => h (List.length_eq_zero.1 e)
    refine ⟨?_, JSMap.get_set_self _ _ _⟩
    unfold setPointsArray
    simp [ht, hlen, upsertPoints]
  · intro ht h
    have hlen : ¬ (cleanPoints c).length = 0 := fun e => h (List.length_eq_zero.1 e)
    unfold setPointsArray
    simp [ht, hlen, upsertPoints]

/-- C10 at the candidate `[25.9, -3, "18"]` on an empty settings table: the
cleaned array `[25, 18]` is stored and returned. -/
theorem C10_setPointsArray_outcome_witness :
    cleanPoints [.num (.fin ⟨259, 10, by decide⟩), .num (.ofInt (-3)), .str "18"] ≠ []
      ∧ setPointsArray [.num (.fin ⟨259, 10, by decide⟩), .num (.ofInt (-3)), .str "18"]
            (some [])
          = (.ok (cleanPoints [.num (.fin ⟨259, 10, by decide⟩), .num (.ofInt (-3)), .str "18"]),
              some (JSMap.set [] "points_json"
                (JSON.stringify
                  (cleanPoints
                    [.num (.fin ⟨259, 10, by decide⟩), .num (.ofInt (-3)), .str "18"])))) :=
  have h : cleanPoints [.num (.fin ⟨259, 10, by decide⟩), .num (.ofInt (-3)), .str "18"] ≠ [] := by
    decide
  ⟨h, ((C10_setPointsArray_outcome _ (some [])).2.2.2.2.1 [] rfl h).1⟩

/-- C10 fails as stated: with the settings table missing, the candidate `[25]`
cleans to the non-empty `[25]` and `setPointsArray` still fails. -/
theorem C10_counterexample_missing_table :
    cleanPoints [.num (.ofInt 25)] = [25]
      ∧ setPointsArray [.num (.ofInt 25)] none = (.error .queryFailed, none) := by
  constructor
  · decide
  · rfl

/-! ## Reading the points back -/

theorem DEFAULT_POINTS_nonneg : ∀ n ∈ DEFAULT_POINTS, (0 : Int) ≤ n := by
  decide

theorem getPointsArray_cases (store : SettingsStore) :
    getPointsArray store = DEFAULT_POINTS
      ∨ ∃ t parsed, store = some t ∧ JSMap.get t "points_json" = some (.array parsed)
          ∧ cleanPoints parsed ≠ [] ∧ getPointsArray store = cleanPoints parsed := by
  cases store with
  | none => left; rfl
  | some t =>
    cases hg : JSMap.get t "points_json" with
    | none => left; simp [getPointsArray, hg]
    | some text =>
      cases text with
      | invalid => left; simp [getPointsArray, hg]
      | nonArray => left; simp [getPointsArray, hg]
      | array parsed =>
        by_cases h : cleanPoints parsed = []
        · left; simp [getPointsArray, hg, h]
        · right
          exact ⟨t, parsed, rfl, hg, h, by simp [getPointsArray, hg, h]⟩

/-- C11: `getPointsArray` is total and returns a non-empty list of non-negative
integers; it returns `DEFAULT_POINTS = [25,18,15,12,10,8,6,4,2,1]` on a query
error, a missing row, a text that is not valid JSON, a JSON value that is not an
array and an array that cleans to nothing, and the cleaned list for a stored
array that cleans to a non-empty list. -/
theorem C11_getPointsArray_default_or_cleaned (store : SettingsStore) :
    getPointsArray store ≠ []
      ∧ (∀ n ∈ getPointsArray store, 0 ≤ n)
      ∧ DEFAULT_POINTS = [25, 18, 15, 12, 10, 8, 6, 4, 2, 1]
      ∧ getPointsArray none = DEFAULT_POINTS
      ∧ (∀ t, JSMap.get t "points_json" = none → getPointsArray (some t) = DEFAULT_POINTS)
      ∧ (∀ t, JSMap.get t "points_json" = some .invalid →
          getPointsArray (some t) = DEFAULT_POINTS)
      ∧ (∀ t, JSMap.get t "points_json" = some .nonArray →
          getPointsArray (some t) = DEFAULT_POINTS)
      ∧ (∀ t parsed, JSMap.get t "points_json" = some (.array parsed) →
          cleanPoints parsed = [] → getPointsArray (some t) = DEFAULT_POINTS)
      ∧ (∀ t parsed, JSMap.get t "points_json" = some (.array parsed) →
          cleanPoints parsed ≠ [] → getPointsArray (some t) = cleanPoints parsed) := by
  refine ⟨?_, ?_, rfl, rfl, ?_, ?_, ?_, ?_, ?_⟩
  · rcases getPointsArray_cases store with h | ⟨t, parsed, _, _, hne, h⟩
    · rw [h]; decide
    · rw [h]; exact hne
  · rcases getPointsArray_cases store with h | ⟨t, parsed, _, _, _, h⟩
    · rw [h]; exact DEFAULT_POINTS_nonneg
    · rw [h]; exact cleanPoints_nonneg parsed
  · intro t h; simp [getPointsArray, h]
  · intro t h; simp [getPointsArray, h]
  · intro t h; simp [getPointsArray, h]
  · intro t parsed h he; simp [getPointsArray, h, he]
  · intro t parsed h hne
    have hlen : (cleanPoints parsed).length ≠ 0 := fun e => hne (List.length_eq_zero.1 e)
    simp [getPointsArray, h, hne]

/-- C11 at a table whose stored array is `["5", 3.7, -1, null]`: it cleans to
`[5, 3, 0]`, which is returned. -/
theorem C11_getPointsArray_default_or_cleaned_witness :
    JSMap.get storedTable "points_json"
        = some (.array [.str "5", .num (.fin ⟨37, 10, by decide⟩), .num (.ofInt (-1)), .null])
      ∧ cleanPoints [.str "5", .num (.fin ⟨37, 10, by decide⟩), .num (.ofInt (-1)), .null] ≠ []
      ∧ getPointsArray (some storedTable)
          = cleanPoints [.str "5", .num (.fin ⟨37, 10, by decide⟩), .num (.ofInt (-1)), .null]
      ∧ getPointsArray (some storedTable) = [5, 3, 0] :=
  have h1 : JSMap.get storedTable "points_json"
      = some (.array [.str "5", .num (.fin ⟨37, 10, by decide⟩), .num (.ofInt (-1)), .null]) := by
    decide
  have h2 : cleanPoints [.str "5", .num (.fin ⟨37, 10, by decide⟩), .num (.ofInt (-1)), .null]
      ≠ [] := by
    decide
  ⟨h1, h2, (C11_getPointsArray_default_or_cleaned (some storedTable)).2.2.2.2.2.2.2.2
    storedTable _ h1 h2, by decide⟩

/-! ## Round trip through the settings store -/

theorem cleanPoints_ofInt (r : List Int) (h : ∀ n ∈ r, 0 ≤ n) :
    cleanPoints (r.map fun n => JSVal.num (JSNum.ofInt n)) = r := by
  rw [cleanPoints_eq_cleanedSpec]
  unfold cleanedSpec
  induction r with
  | nil => rfl
  | cons a rest ih =>
    have ha : 0 ≤ a := h a (List.mem_cons_self _ _)
    have hrest : ∀ n ∈ rest, 0 ≤ n := fun n hn => h n (List.mem_cons_of_mem _ hn)
    rw [List.map_cons, List.filterMap_cons]
    simp only [Number, JSNum.ofInt, Fraction.ofInt, ha, if_true, Int.tdiv_one, Nat.cast_one]
    exact congrArg (fun l => a :: l) (ih hrest)

theorem setPointsArray_ok (c : List JSVal) (store : SettingsStore) (r : List Int)
    (store1 : SettingsStore) (h : setPointsArray c store = (.ok r, store1)) :
    r = cleanPoints c ∧ cleanPoints c ≠ []
      ∧ ∃ t, store = some t
          ∧ store1 = some (JSMap.set t "points_json" (JSON.stringify (cleanPoints c))) := by
  unfold setPointsArray at h
  by_cases he : (cleanPoints c).length = 0
  · simp [he] at h
  · have hne : cleanPoints c ≠ [] := fun e => he (by rw [e]; rfl)
    cases store with
    | none => simp [he, upsertPoints] at h
    | some t =>
      simp only [he, if_false, upsertPoints, Option.map_some', Prod.mk.injEq,
        Except.ok.injEq] at h
      exact ⟨h.1.symm, hne, t, rfl, h.2.symm⟩

/-- C12: when `setPointsArray(c)` succeeds with result `r`, `getPointsArray` on
the store it leaves returns exactly `r`; cleaning the serialised cleaned array
gives the cleaned array again, and a non-empty cleaned array is not replaced by
the default. -/
theorem C12_set_then_get (c : List JSVal) (store : SettingsStore) (r : List Int)
    (store1 : SettingsStore) (h : setPointsArray c store = (.ok r, store1)) :
    getPointsArray store1 = r
      ∧ JSON.stringify (cleanPoints c)
          = .array ((cleanPoints c).map fun n => JSVal.num (JSNum.ofInt n))
      ∧ cleanPoints ((cleanPoints c).map fun n => JSVal.num (JSNum.ofInt n)) = cleanPoints c
      ∧ r ≠ [] := by
  obtain ⟨hr, hne, t, _, hs1⟩ := setPointsArray_ok c store r store1 h
  have hidem := cleanPoints_ofInt (cleanPoints c) (cleanPoints_nonneg c)
  refine ⟨?_, rfl, hidem, hr ▸ hne⟩
  rw [hs1, hr]
  have hlen : (cleanPoints c).length ≠ 0 := fun e => hne (List.length_eq_zero.1 e)
  simp only [getPointsArray, JSMap.get_set_self, JSON.stringify, hidem]
  simp [hlen]

/-- C12 at the candidate `[25.9, -3, "18"]` on an empty settings table: the
write returns `[25, 18]` and the read after it returns `[25, 18]`. -/
theorem C12_set_then_get_witness :
    setPointsArray mixedCandidate (some [])
        = (.ok [25, 18], some [("points_json", JSON.stringify [25, 18])])
      ∧ getPointsArray (some [("points_json", JSON.stringify [25, 18])]) = [25, 18] :=
  have h : setPointsArray mixedCandidate (some [])
      = (.ok [25, 18], some [("points_json", JSON.stringify [25, 18])]) := by
    rfl
  ⟨h, (C12_set_then_get mixedCandidate (some []) [25, 18] _ h).1⟩

/-- C13, as amended: the candidate `[25.9, -3, "18"]` cleans to `[25, 18]`: the
fraction is truncated, the negative number dropped and the numeric string
converted and kept; `setPointsArray` returns `[25, 18]` whenever the settings
table accepts the write. -/
theorem C13_mixed_candidate_cleaned (t : JSMap String JsonText) :
    cleanPoints mixedCandidate = [25, 18]
      ∧ Number (.str "18") = JSNum.ofInt 18
      ∧ (setPointsArray mixedCandidate (some t)).1 = .ok [25, 18] := by
  have h : cleanPoints mixedCandidate = [25, 18] := by decide
  refine ⟨h, by decide, ?_⟩
  unfold setPointsArray
  simp [h, upsertPoints]

/-- C13 fails as stated: on an empty settings table `setPointsArray` returns
`[25, 18]` for the candidate `[25.9, -3, "18"]`, not `[25]`. -/
theorem C13_counterexample_string_kept :
    (setPointsArray mixedCandidate (some [])).1 = .ok [25, 18]
      ∧ (setPointsArray mixedCandidate (some [])).1 ≠ .ok [25] := by
  have h : (setPointsArray mixedCandidate (some [])).1 = .ok [25, 18] := rfl
  refine ⟨h, ?_⟩
  rw [h]
  intro e
  cases e

/-! ## Places that are not integers -/

theorem trunc_lt_one_iff (q : Fraction) : Math.trunc q < 1 ↔ q.num < 1 * (q.den : Int) := by
  unfold Math.trunc
  have hden : (0 : Int) < q.den := by exact_mod_cast q.den_pos
  by_cases hn : 0 ≤ q.num
  · rw [Int.tdiv_eq_ediv hn (Int.le_of_lt hden)]
    exact Int.ediv_lt_iff_lt_mul hden
  · have h1 : q.num < 1 * (q.den : Int) := by omega
    have h2 : q.num.tdiv q.den ≤ 0 := by
      have h3 : 0 ≤ (-q.num).tdiv q.den := Int.tdiv_nonneg (by omega) (Int.le_of_lt hden)
      rw [Int.neg_tdiv] at h3
      omega
    constructor
    · intro _; exact h1
    · intro _; omega

theorem pointsForPlace_fin (q : Fraction) (t : List Int) :
    pointsForPlace (.num (.fin q)) t
      = if 1 ≤ Math.trunc q ∧ Math.trunc q ≤ t.length then
          t.getD (Math.trunc q - 1).toNat 0
        else 0 := by
  unfold pointsForPlace
  simp only [Number, Number.isFinite, JSNum.ltInt, Bool.not_true, Bool.false_or]
  by_cases h1 : q.num < 1 * (q.den : Int)
  · have h2 : ¬ 1 ≤ Math.trunc q := by
      have := (trunc_lt_one_iff q).2 h1
      omega
    simp [h1, h2]
  · have h2 : 1 ≤ Math.trunc q := by
      have := mt (trunc_lt_one_iff q).1 h1
      omega
    by_cases h3 : Math.trunc q ≤ t.length
    · have h4 : 0 ≤ Math.trunc q - 1 ∧ Math.trunc q - 1 < t.length := by omega
      simp only [h1, decide_False, Bool.false_eq_true, if_false, h4, and_self, if_true, h2, h3]
    · have h4 : ¬ (0 ≤ Math.trunc q - 1 ∧ Math.trunc q - 1 < t.length) := by omega
      simp only [h1, decide_False, Bool.false_eq_true, if_false, h4, h2, h3, and_false]

/-- C14, as amended: on a finite place `p`, integer or not, `pointsForPlace`
returns the table entry at index `trunc(p) - 1` when `1 ≤ trunc(p) ≤ length`
and `0` otherwise, `trunc` cutting the fraction off; the place `1.5` on
`[25, 18, 15]` gives 25 and the place `0.5` gives 0. -/
theorem C14_fractional_place_truncated (t : List Int) (q : Fraction) :
    (if 1 ≤ Math.trunc q ∧ Math.trunc q ≤ t.length then t[(Math.trunc q - 1).toNat]?
        else some 0)
        = some (pointsForPlace (.num (.fin q)) t)
      ∧ Math.trunc q = q.num.tdiv q.den
      ∧ pointsForPlace placeOneAndHalf [25, 18, 15] = 25
      ∧ pointsForPlace (.num (.fin ⟨1, 2, by decide⟩)) [25, 18, 15] = 0 := by
  refine ⟨?_, rfl, by decide, by decide⟩
  rw [pointsForPlace_fin]
  split
  · rename_i h
    have hlt : (Math.trunc q).toNat - 1 < t.length := by omega
    simp [List.getD, List.getElem?_eq_getElem hlt]
  · rfl

/-- C14 fails as stated: the place `1.5 = 3/2` is finite and not an integer,
and `pointsForPlace(1.5, [25, 18, 15])` is 25, not 0. -/
theorem C14_counterexample_one_and_half :
    placeOneAndHalf = .num (.fin ⟨3, 2, by decide⟩)
      ∧ ¬ ((2 : Int) ∣ 3)
      ∧ pointsForPlace placeOneAndHalf [25, 18, 15] = 25
      ∧ pointsForPlace placeOneAndHalf [25, 18, 15] ≠ 0 := by
  refine ⟨rfl, by decide, by decide, by decide⟩

/-! ## Basic Auth -/

theorem dropWhile_colon_cons (f : Char → Bool) (hf : ∀ c, f c = true ↔ c ≠ ':')
    (l : List Char) (x : Char) (pass : List Char) (h : l.dropWhile f = x :: pass) :
    l = l.takeWhile f ++ ':' :: pass ∧ ':' ∉ l.takeWhile f := by
  have hx : x = ':' := by
    have := List.head?_dropWhile_not f l
    rw [h] at this
    simp only [List.head?_cons] at this
    by_contra hne
    rw [(hf x).2 hne] at this
    cases this
  constructor
  · conv_lhs => rw [← List.takeWhile_append_dropWhile f l]
    rw [h, hx]
  · intro hmem
    exact (hf ':').1 (List.mem_takeWhile_imp hmem) rfl

theorem takeWhile_colon_append (f : Char → Bool) (hf : ∀ c, f c = true ↔ c ≠ ':')
    (user pass : List Char) (h : ':' ∉ user) :
    (user ++ ':' :: pass).takeWhile f = user
      ∧ (user ++ ':' :: pass).dropWhile f = ':' :: pass := by
  have hcolon : f ':' = false := by
    cases hc : f ':' with
    | false => rfl
    | true => exact absurd rfl ((hf ':').1 hc)
  induction user with
  | nil => simp [List.takeWhile, List.dropWhile, hcolon]
  | cons a rest ih =>
    have ha : f a = true := (hf a).2 (fun e => h (e ▸ List.mem_cons_self _ _))
    have hr : ':' ∉ rest := fun e => h (List.mem_cons_of_mem _ e)
    obtain ⟨h1, h2⟩ := ih hr
    constructor
    · simp only [List.cons_append, List.takeWhile, ha]
      exact congrArg (fun l => a :: l) h1
    · simp only [List.cons_append, List.dropWhile, ha]
      exact h2

theorem ne_colon_iff (c : Char) : decide (c ≠ ':') = true ↔ c ≠ ':' := by
  simp

theorem parseBasicAuth_eq (decode : String → String) (authorization : Option String) :
    parseBasicAuth decode authorization
      = credsOfSegments decode (splitChars ' ' (authorization.getD "").data) := by
  unfold parseBasicAuth
  cases hs : splitChars ' ' (authorization.getD "").data with
  | nil => simp only [hs]; rfl
  | cons type tl =>
    cases tl with
    | nil => simp only [hs]; rfl
    | cons token rest => simp only [hs]; rfl

theorem credsOfDecoded_eq_some (decoded : List Char) (u p : String) :
    credsOfDecoded decoded = some { user := u, pass := p }
      ↔ decoded = u.data ++ ':' :: p.data ∧ ':' ∉ u.data := by
  unfold credsOfDecoded
  constructor
  · intro h
    cases hd : decoded.dropWhile (fun c => c ≠ ':') with
    | nil => rw [hd] at h; cases h
    | cons x pass =>
      rw [hd] at h
      have hinj := Option.some.inj h
      obtain ⟨hl, hnot⟩ := dropWhile_colon_cons _ ne_colon_iff _ x pass hd
      have hu : decoded.takeWhile (fun c => c ≠ ':') = u.data :=
        congrArg (fun c : Creds => c.user.data) hinj
      have hp : pass = p.data := congrArg (fun c : Creds => c.pass.data) hinj
      rw [← hu, ← hp]
      exact ⟨hl, hnot⟩
  · rintro ⟨hdec, hcolon⟩
    obtain ⟨h1, h2⟩ := takeWhile_colon_append _ ne_colon_iff u.data p.data hcolon
    rw [hdec, h2, h1]

theorem credsOfSegments_cons (decode : String → String) (type token : List Char)
    (rest : List (List Char)) :
    credsOfSegments decode (type :: token :: rest)
      = if type ≠ "Basic".data ∨ token = [] then none
        else credsOfDecoded (decode (String.mk token)).data :=
  rfl

/-- The credentials the parser finds, in terms of the header text. -/
theorem parseBasicAuth_eq_some (decode : String → String) (authorization : Option String)
    (u p : String) :
    parseBasicAuth decode authorization = some { user := u, pass := p }
      ↔ ∃ token rest,
          splitChars ' ' (authorization.getD "").data = "Basic".data :: token :: rest
            ∧ token ≠ []
            ∧ (decode (String.mk token)).data = u.data ++ ':' :: p.data
            ∧ ':' ∉ u.data := by
  rw [parseBasicAuth_eq]
  constructor
  · intro h
    cases hs : splitChars ' ' (authorization.getD "").data with
    | nil => rw [hs] at h; cases h
    | cons type tl =>
      cases tl with
      | nil => rw [hs] at h; cases h
      | cons token rest =>
        rw [hs, credsOfSegments_cons] at h
        by_cases hg : type ≠ "Basic".data ∨ token = []
        · rw [if_pos hg] at h; cases h
        · rw [if_neg hg] at h
          have hty : type = "Basic".data := by
            by_contra hne; exact hg (Or.inl hne)
          have htok : token ≠ [] := fun e => hg (Or.inr e)
          obtain ⟨h1, h2⟩ := (credsOfDecoded_eq_some _ u p).1 h
          exact ⟨token, rest, by rw [hty], htok, h1, h2⟩
  · rintro ⟨token, rest, hs, htok, hdec, hcolon⟩
    have hg : ¬ ("Basic".data ≠ "Basic".data ∨ token = []) := by
      rintro (h | h)
      · exact h rfl
      · exact htok h
    rw [hs, credsOfSegments_cons, if_neg hg]
    exact (credsOfDecoded_eq_some _ u p).2 ⟨hdec, hcolon⟩

/-- C15: `adminAuth` calls `next` exactly when `ADMIN_USER` and `ADMIN_PASS`
are set and non-empty and the `Authorization` header reads `Basic <token>`
with a token that decodes to `user:pass`, `user` (the text before the first
colon) being `ADMIN_USER` and `pass` (all the text after it) being
`ADMIN_PASS`; it answers 500 exactly when a credential is unset or empty, and
401 in every other case. -/
theorem C15_adminAuth_gate (decode : String → String)
    (ADMIN_USER ADMIN_PASS authorization : Option String) :
    (adminAuth decode ADMIN_USER ADMIN_PASS authorization = .next
        ↔ ∃ u p, ADMIN_USER = some u ∧ ADMIN_PASS = some p ∧ u ≠ "" ∧ p ≠ ""
            ∧ ∃ token rest,
                splitChars ' ' (authorization.getD "").data = "Basic".data :: token :: rest
                  ∧ token ≠ []
                  ∧ (decode (String.mk token)).data = u.data ++ ':' :: p.data
                  ∧ ':' ∉ u.data)
      ∧ (adminAuth decode ADMIN_USER ADMIN_PASS authorization = .status500
          ↔ ADMIN_USER.getD "" = "" ∨ ADMIN_PASS.getD "" = "")
      ∧ (adminAuth decode ADMIN_USER ADMIN_PASS authorization = .status401
          ↔ adminAuth decode ADMIN_USER ADMIN_PASS authorization ≠ .next
            ∧ ¬ (ADMIN_USER.getD "" = "" ∨ ADMIN_PASS.getD "" = "")) := by
  have h500 : adminAuth decode ADMIN_USER ADMIN_PASS authorization = .status500
      ↔ ADMIN_USER.getD "" = "" ∨ ADMIN_PASS.getD "" = "" := by
    unfold adminAuth
    by_cases he : ADMIN_USER.getD "" = "" ∨ ADMIN_PASS.getD "" = ""
    · simp [he]
    · simp only [he, if_false, iff_false]
      cases parseBasicAuth decode authorization with
      | none => simp
      | some creds => by_cases hc : creds.user ≠ ADMIN_USER.getD "" ∨ creds.pass ≠ ADMIN_PASS.getD "" <;> simp [hc]
  refine ⟨?_, h500, ?_⟩
  · constructor
    · intro h
      have hne : ¬ (ADMIN_USER.getD "" = "" ∨ ADMIN_PASS.getD "" = "") := by
        intro he
        rw [h500.2 he] at h
        cases h
      have hu : ADMIN_USER = some (ADMIN_USER.getD "") := by
        cases hU : ADMIN_USER with
        | none => exact absurd (Or.inl (by rw [hU]; rfl)) hne
        | some u => rfl
      have hp : ADMIN_PASS = some (ADMIN_PASS.getD "") := by
        cases hP : ADMIN_PASS with
        | none => exact absurd (Or.inr (by rw [hP]; rfl)) hne
        | some p => rfl
      refine ⟨ADMIN_USER.getD "", ADMIN_PASS.getD "", hu, hp, fun e => hne (Or.inl e),
        fun e => hne (Or.inr e), ?_⟩
      unfold adminAuth at h
      simp only [hne, if_false] at h
      cases hc : parseBasicAuth decode authorization with
      | none => simp [hc] at h
      | some creds =>
        simp only [hc] at h
        by_cases hcr : creds.user ≠ ADMIN_USER.getD "" ∨ creds.pass ≠ ADMIN_PASS.getD ""
        · simp [hcr] at h
        · have h1 : creds.user = ADMIN_USER.getD "" := by
            by_contra hn; exact hcr (Or.inl hn)
          have h2 : creds.pass = ADMIN_PASS.getD "" := by
            by_contra hn; exact hcr (Or.inr hn)
          have hcreds : creds = { user := ADMIN_USER.getD "", pass := ADMIN_PASS.getD "" } := by
            cases creds
            simp only [Creds.mk.injEq]
            exact ⟨h1, h2⟩
          rw [hcreds] at hc
          exact (parseBasicAuth_eq_some decode authorization _ _).1 hc
    · rintro ⟨u, p, hU, hP, hu, hp, hex⟩
      have hc := (parseBasicAuth_eq_some decode authorization u p).2 hex
      unfold adminAuth
      simp [hU, hP, hu, hp, hc]
  · constructor
    · intro h
      constructor
      · rw [h]; intro e; cases e
      · intro he
        rw [h500.2 he] at h
        cases h
    · rintro ⟨hn, he⟩
      cases hr : adminAuth decode ADMIN_USER ADMIN_PASS authorization with
      | next => exact absurd hr hn
      | status500 => exact absurd (h500.1 hr) he
      | status401 => rfl

/-- C15 on sample requests with `ADMIN_USER = admin` and `ADMIN_PASS = secret`:
the header `Basic YWRtaW46c2VjcmV0` (`admin:secret`) passes, a wrong password
and a missing header get 401, and an unset password gives 500. -/
theorem C15_adminAuth_gate_witness :
    adminAuth sampleDecode (some "admin") (some "secret") (some "Basic YWRtaW46c2VjcmV0")
        = .next
      ∧ adminAuth sampleDecode (some "admin") (some "secret") (some "Basic YWRtaW46d3Jvbmc=")
        = .status401
      ∧ adminAuth sampleDecode (some "admin") (some "secret") none = .status401
      ∧ adminAuth sampleDecode (some "admin") none (some "Basic YWRtaW46c2VjcmV0")
        = .status500 :=
  ⟨(C15_adminAuth_gate sampleDecode (some "admin") (some "secret")
      (some "Basic YWRtaW46c2VjcmV0")).1.2
      ⟨"admin", "secret", rfl, rfl, by decide, by decide,
        "YWRtaW46c2VjcmV0".data, [], by decide, by decide, by decide, by decide⟩,
    by decide, by decide, by decide⟩

/-! ## Ties in the driver standings -/

theorem pair_sublist_of_indexOf_lt {α : Type} [DecidableEq α] (l : List α) (x y : α)
    (hy : y ∈ l) (h : List.indexOf x l < List.indexOf y l) : List.Sublist [x, y] l := by
  induction l with
  | nil => cases hy
  | cons a rest ih =>
    by_cases hax : a = x
    · subst hax
      have hya : y ≠ a := by
        intro e
        rw [e, List.indexOf_cons_self] at h
        exact Nat.lt_irrefl _ h
      have hyr : y ∈ rest := by
        rcases List.mem_cons.1 hy with h1 | h1
        · exact absurd h1 hya
        · exact h1
      exact List.Sublist.cons₂ a (List.singleton_sublist.2 hyr)
    · have hay : a ≠ y := by
        intro e
        rw [e, List.indexOf_cons_self] at h
        exact Nat.not_lt_zero _ h
      rw [List.indexOf_cons_ne _ hax, List.indexOf_cons_ne _ hay] at h
      have hyr : y ∈ rest := by
        rcases List.mem_cons.1 hy with h1 | h1
        · exact absurd h1.symm hay
        · exact h1
      exact List.Sublist.cons a (ih hyr (Nat.lt_of_succ_lt_succ h))

theorem indexOf_lt_of_pair_sublist {α : Type} [DecidableEq α] (l : List α) (x y : α)
    (hnd : l.Nodup) (h : List.Sublist [x, y] l) : List.indexOf x l < List.indexOf y l := by
  induction l with
  | nil => cases h
  | cons a rest ih =>
    rw [List.nodup_cons] at hnd
    cases h with
    | cons _ h1 =>
      have hx : x ∈ rest := h1.subset (by simp)
      have hy : y ∈ rest := h1.subset (by simp)
      have hax : a ≠ x := fun e => hnd.1 (e ▸ hx)
      have hay : a ≠ y := fun e => hnd.1 (e ▸ hy)
      rw [List.indexOf_cons_ne _ hax, List.indexOf_cons_ne _ hay]
      exact Nat.succ_lt_succ (ih hnd.2 h1)
    | cons₂ _ h1 =>
      have hy : y ∈ rest := h1.subset (by simp)
      have hay : x ≠ y := fun e => hnd.1 (e ▸ hy)
      rw [List.indexOf_cons_self, List.indexOf_cons_ne _ hay]
      exact Nat.succ_pos _

theorem leaderboard_nodup (rows : List Row) (points : List Int) :
    (computeLeaderboard rows points).leaderboard.Nodup :=
  List.Nodup.of_map (fun s => s.id)
    ((leaderboard_ids rows points).nodup_iff.2 (JSSet.nodup_ofList _))

/-- C16: two drivers with equal `totalPoints` and equal `resultsCount` stand in
first-seen order: the one whose first row comes earlier in the row list is
listed before the other. -/
theorem C16_ties_first_seen (rows : List Row) (points : List Int) (a b : DriverStanding)
    (ha : a ∈ (computeLeaderboard rows points).leaderboard)
    (hb : b ∈ (computeLeaderboard rows points).leaderboard)
    (hpoints : a.totalPoints = b.totalPoints) (hcount : a.resultsCount = b.resultsCount)
    (hfirst : List.indexOf a.id (rows.map fun r => r.driver_id)
        < List.indexOf b.id (rows.map fun r => r.driver_id)) :
    List.Sublist [a, b] (computeLeaderboard rows points).leaderboard
      ∧ List.indexOf a (computeLeaderboard rows points).leaderboard
          < List.indexOf b (computeLeaderboard rows points).leaderboard := by
  obtain ⟨hai, hae⟩ := (mem_leaderboard rows points a).1 ha
  obtain ⟨hbi, hbe⟩ := (mem_leaderboard rows points b).1 hb
  have hset : List.Sublist [a.id, b.id] (JSSet.ofList (rows.map fun r => r.driver_id)) :=
    pair_sublist_of_indexOf_lt _ _ _ ((JSSet.mem_ofList _ _).2 hbi)
      ((JSSet.indexOf_ofList _ a.id b.id hai hbi).2 hfirst)
  have hrec : List.Sublist [a, b] ((driverRecords points rows).map driverStanding) := by
    have h := hset.map fun d => driverStanding (driverAggOf points d rows)
    simp only [List.map_cons, List.map_nil, ← hae, ← hbe] at h
    unfold driverRecords
    rw [List.map_map]
    exact h
  have hle : compareDrivers a b ≤ 0 :=
    (compareDrivers_le_iff a b).2 (Or.inr ⟨hpoints, by omega⟩)
  have hsub : List.Sublist [a, b] (computeLeaderboard rows points).leaderboard := by
    unfold computeLeaderboard jsSort
    simp only [values_drivers]
    exact List.pair_sublist_insertionSort hle hrec
  exact ⟨hsub, indexOf_lt_of_pair_sublist _ a b (leaderboard_nodup rows points) hsub⟩

/-- C16 at two drivers with 25 points from one result each: driver 2, whose
row comes first, is listed before driver 1. -/
theorem C16_ties_first_seen_witness :
    tiedStanding 2 ∈ (computeLeaderboard tiedRows [25, 18, 15]).leaderboard
      ∧ tiedStanding 1 ∈ (computeLeaderboard tiedRows [25, 18, 15]).leaderboard
      ∧ List.indexOf (tiedStanding 2).id (tiedRows.map fun r => r.driver_id)
          < List.indexOf (tiedStanding 1).id (tiedRows.map fun r => r.driver_id)
      ∧ List.indexOf (tiedStanding 2) (computeLeaderboard tiedRows [25, 18, 15]).leaderboard
          < List.indexOf (tiedStanding 1) (computeLeaderboard tiedRows [25, 18, 15]).leaderboard :=
  have h2 : tiedStanding 2 ∈ (computeLeaderboard tiedRows [25, 18, 15]).leaderboard := by decide
  have h1 : tiedStanding 1 ∈ (computeLeaderboard tiedRows [25, 18, 15]).leaderboard := by decide
  have hf : List.indexOf (tiedStanding 2).id (tiedRows.map fun r => r.driver_id)
      < List.indexOf (tiedStanding 1).id (tiedRows.map fun r => r.driver_id) := by decide
  ⟨h2, h1, hf,
    (C16_ties_first_seen tiedRows [25, 18, 15] (tiedStanding 2) (tiedStanding 1) h2 h1 rfl rfl
      hf).2⟩

/-! ## Rows with a team id -/

theorem sum_map_eq_add_erase (l : List Row) (r : Row) (f : Row → Int) (h : r ∈ l) :
    (l.map f).sum = f r + ((l.erase r).map f).sum := by
  have hp := (List.perm_cons_erase h).map f
  rw [hp.sum_eq, List.map_cons, List.sum_cons]

theorem foldl_teamStep_filter_truthy (points : List Int) (rows : List Row)
    (m : JSMap Int TeamAgg) :
    (rows.filter fun r => truthy r.team_id).foldl (teamStep points) m
      = rows.foldl (teamStep points) m := by
  induction rows generalizing m with
  | nil => rfl
  | cons r rest ih =>
    by_cases htr : truthy r.team_id = true
    · simp [List.filter, htr, ih]
    · have hstep : teamStep points m r = m := teamStep_of_not_truthy points m r htr
      simp [List.filter, htr, hstep, ih]

theorem foldl_driverHits (points : List Int) (rows : List Row) (d : Int)
    (hd : d ∈ rows.map fun r => r.driver_id) :
    ∃ a, JSMap.get (aggregate points rows).drivers d = some a
      ∧ a.teamHits = hitsOf (rowsOfDriver d rows) := by
  refine ⟨driverAggOf points d rows, ?_, rfl⟩
  rw [aggregate_drivers, get_drivers, if_pos hd]

/-- C17, as amended: every row whose `team_id` is neither null nor 0 is
accumulated under that id: the team standings hold an entry with the id, whose
`totalPoints` is the points of the row plus those of the other rows of the team
whenever the absolute values of the points of the team rows sum to at most
`2 ^ 53`, the range in which the binary64 additions of the loop are exact; and
the `teamHits` of the driver of the row count it among the rows of that driver
with the team.  Rows with a null or 0 `team_id` leave the team standings
unchanged, and no team standing has the id 0. -/
theorem C17_team_rows_accumulated (rows : List Row) (points : List Int) :
    (∀ r ∈ rows, ∀ t : Int, r.team_id = some t → t ≠ 0 →
        (∃ e ∈ (computeLeaderboard rows points).teamboard,
            e.id = t
              ∧ r ∈ (rows.filter fun x => x.team_id = some t)
              ∧ (((rows.filter fun x => x.team_id = some t).map
                    fun x => (pointsForPlace x.place points).natAbs).sum ≤ 2 ^ 53 →
                  e.totalPoints
                    = pointsForPlace r.place points
                      + (((rows.filter fun x => x.team_id = some t).erase r).map
                          fun x => pointsForPlace x.place points).sum))
          ∧ ∃ d hit,
              JSMap.get (aggregate points rows).drivers r.driver_id = some d
                ∧ JSMap.get d.teamHits t = some hit
                ∧ r ∈ ((rows.filter fun x => x.driver_id = r.driver_id).filter
                    fun x => x.team_id = some t)
                ∧ hit.count
                    = ((rows.filter fun x => x.driver_id = r.driver_id).filter
                        fun x => x.team_id = some t).length)
      ∧ (computeLeaderboard (rows.filter fun r => truthy r.team_id) points).teamboard
          = (computeLeaderboard rows points).teamboard
      ∧ ∀ e ∈ (computeLeaderboard rows points).teamboard, e.id ≠ 0 := by
  refine ⟨?_, ?_, ?_⟩
  · intro r hr t ht h0
    have hrt : r ∈ rows.filter fun x => x.team_id = some t := by simp [hr, ht]
    constructor
    · have htag : t ∈ taggedTeams rows := (mem_taggedTeams rows t).2 ⟨h0, r, hr, ht⟩
      have hmem : teamStanding (teamAggOf points t rows)
          ∈ (computeLeaderboard rows points).teamboard :=
        (mem_teamboard rows points _).2 ⟨htag, rfl⟩
      refine ⟨teamStanding (teamAggOf points t rows), hmem, rfl, hrt, ?_⟩
      intro hb
      have h1 : (teamStanding (teamAggOf points t rows)).totalPoints
          = sumPoints points (rowsOfTeam t rows) :=
        runningTotal_eq_sumPoints points (rowsOfTeam t rows) hb
      rw [h1]
      exact sum_map_eq_add_erase _ r (fun x => pointsForPlace x.place points) hrt
    · have hd : r.driver_id ∈ rows.map fun r => r.driver_id := List.mem_map_of_mem _ hr
      obtain ⟨a, ha, hhits⟩ := foldl_driverHits points rows r.driver_id hd
      have hrd : r ∈ rowsOfDriver r.driver_id rows := by simp [rowsOfDriver, hr]
      have htag : t ∈ taggedTeams (rowsOfDriver r.driver_id rows) :=
        (mem_taggedTeams _ t).2 ⟨h0, r, hrd, ht⟩
      refine ⟨a, hitOf t (rowsOfDriver r.driver_id rows), ha, ?_, ?_, rfl⟩
      · rw [hhits, get_hits, if_pos htag]
      · have : r ∈ rowsOfTeam t (rowsOfDriver r.driver_id rows) := by
          simp [rowsOfTeam, rowsOfDriver, hr, ht]
        exact this
  · unfold computeLeaderboard
    simp only [aggregate_teams, foldl_teamStep_filter_truthy]
  · intro e he
    exact ((mem_taggedTeams rows e.id).1 ((mem_teamboard rows points e).1 he).1).1

/-- C17 at the first of three rows of team 10: the row is in the list, its
team id is 10, not 0, the points of the team rows stay below `2 ^ 53`, and team
10 has a standing whose total is the points of the row plus the others. -/
theorem C17_team_rows_accumulated_witness :
    sampleRow 1 1 (some 10) 1 ∈ sharedTeamRows
      ∧ (sampleRow 1 1 (some 10) 1).team_id = some 10
      ∧ (10 : Int) ≠ 0
      ∧ ((sharedTeamRows.filter fun x => x.team_id = some 10).map
            fun x => (pointsForPlace x.place [25, 18, 15]).natAbs).sum ≤ 2 ^ 53
      ∧ ∃ e ∈ (computeLeaderboard sharedTeamRows [25, 18, 15]).teamboard,
          e.id = 10
            ∧ e.totalPoints
                = pointsForPlace (sampleRow 1 1 (some 10) 1).place [25, 18, 15]
                  + (((sharedTeamRows.filter fun x => x.team_id = some 10).erase
                        (sampleRow 1 1 (some 10) 1)).map
                      fun x => pointsForPlace x.place [25, 18, 15]).sum :=
  have h1 : sampleRow 1 1 (some 10) 1 ∈ sharedTeamRows := by decide
  have hb : ((sharedTeamRows.filter fun x => x.team_id = some 10).map
      fun x => (pointsForPlace x.place [25, 18, 15]).natAbs).sum ≤ 2 ^ 53 := by
    decide
  have h := ((C17_team_rows_accumulated sharedTeamRows [25, 18, 15]).1 _ h1 10 rfl
    (by decide)).1
  ⟨h1, rfl, by decide, hb,
    h.elim fun e he => ⟨e, he.1, he.2.1, he.2.2.2 hb⟩⟩

/-- C17 fails as stated: a row with the non-null team id 0 gives no team
standing and no entry in the `teamHits` of its driver. -/
theorem C17_counterexample_team_id_zero :
    (sampleRow 1 1 (some 0) 1).team_id = some 0
      ∧ (computeLeaderboard [sampleRow 1 1 (some 0) 1] [25, 18, 15]).teamboard = []
      ∧ ((aggregate [25, 18, 15] [sampleRow 1 1 (some 0) 1]).drivers.map
          fun e => (e.1, e.2.totalPoints, e.2.teamHits)) = [(1, 25, [])] := by
  decide

/-! ## Order independence of the totals -/

theorem sumPoints_perm (points : List Int) {l1 l2 : List Row} (h : l1.Perm l2) :
    sumPoints points l1 = sumPoints points l2 := by
  unfold sumPoints
  exact (h.map _).sum_eq

theorem ofList_perm {l1 l2 : List Int} (h : l1.Perm l2) :
    (JSSet.ofList l1).Perm (JSSet.ofList l2) := by
  rw [List.perm_ext_iff_of_nodup (JSSet.nodup_ofList l1) (JSSet.nodup_ofList l2)]
  intro a
  rw [JSSet.mem_ofList, JSSet.mem_ofList]
  exact h.mem_iff

theorem leaderboard_map_perm {α : Type} (points : List Int) (rows1 rows2 : List Row)
    (h : rows1.Perm rows2) (f : DriverStanding → α)
    (hf : ∀ d, f (driverStanding (driverAggOf points d rows1))
      = f (driverStanding (driverAggOf points d rows2))) :
    ((computeLeaderboard rows1 points).leaderboard.map f).Perm
      ((computeLeaderboard rows2 points).leaderboard.map f) := by
  have key : ∀ rows : List Row,
      ((computeLeaderboard rows points).leaderboard.map f).Perm
        ((JSSet.ofList (rows.map fun r => r.driver_id)).map fun d =>
          f (driverStanding (driverAggOf points d rows))) := by
    intro rows
    have hp := (leaderboard_perm rows points).map f
    unfold driverRecords at hp
    rw [List.map_map, List.map_map] at hp
    exact hp
  refine (key rows1).trans (List.Perm.trans ?_ (key rows2).symm)
  rw [funext hf]
  exact (ofList_perm (h.map _)).map _

theorem teamboard_map_perm {α : Type} (points : List Int) (rows1 rows2 : List Row)
    (h : rows1.Perm rows2) (f : TeamStanding → α)
    (hf : ∀ t, f (teamStanding (teamAggOf points t rows1))
      = f (teamStanding (teamAggOf points t rows2))) :
    ((computeLeaderboard rows1 points).teamboard.map f).Perm
      ((computeLeaderboard rows2 points).teamboard.map f) := by
  have key : ∀ rows : List Row,
      ((computeLeaderboard rows points).teamboard.map f).Perm
        ((JSSet.ofList (taggedTeams rows)).map fun t =>
          f (teamStanding (teamAggOf points t rows))) := by
    intro rows
    have hp := (teamboard_perm rows points).map f
    unfold teamRecords at hp
    rw [List.map_map, List.map_map] at hp
    exact hp
  refine (key rows1).trans (List.Perm.trans ?_ (key rows2).symm)
  rw [funext hf]
  have htag : (taggedTeams rows1).Perm (taggedTeams rows2) := h.filterMap _
  exact (ofList_perm htag).map _

theorem runningTotal_perm (points : List Int) {l1 l2 : List Row} (h : l1.Perm l2)
    (hb : absPoints points l1 ≤ 2 ^ 53) : runningTotal points l1 = runningTotal points l2 := by
  rw [runningTotal_eq_sumPoints points l1 hb,
    runningTotal_eq_sumPoints points l2 (absPoints_perm points h ▸ hb)]
  exact sumPoints_perm points h

theorem driversCount_perm (points : List Int) {rows1 rows2 : List Row} (h : rows1.Perm rows2)
    (t : Int) :
    (teamStanding (teamAggOf points t rows1)).driversCount
      = (teamStanding (teamAggOf points t rows2)).driversCount := by
  have hf : (rowsOfTeam t rows1).Perm (rowsOfTeam t rows2) := h.filter _
  show JSSet.size (JSSet.ofList _) = JSSet.size (JSSet.ofList _)
  rw [JSSet.size_ofList, JSSet.size_ofList, List.toFinset_eq_of_perm _ _ (hf.map _)]

/-- C18, as amended: the leaderboards of two row lists that are permutations of
each other give every driver the same `resultsCount` and every team the same
`driversCount`; they also give every driver and every team the same
`totalPoints` whenever the absolute values of the points of the rows sum to at
most `2 ^ 53`, the range in which the binary64 additions of the loop are exact.
The standings, reduced to the id and those numbers, are permutations of each
other. -/
theorem C18_totals_order_independent (points : List Int) (rows1 rows2 : List Row)
    (h : rows1.Perm rows2) :
    ((computeLeaderboard rows1 points).leaderboard.map fun s => (s.id, s.resultsCount)).Perm
        ((computeLeaderboard rows2 points).leaderboard.map fun s => (s.id, s.resultsCount))
      ∧ ((computeLeaderboard rows1 points).teamboard.map fun e => (e.id, e.driversCount)).Perm
          ((computeLeaderboard rows2 points).teamboard.map fun e => (e.id, e.driversCount))
      ∧ ((rows1.map fun r => (pointsForPlace r.place points).natAbs).sum ≤ 2 ^ 53 →
          ((computeLeaderboard rows1 points).leaderboard.map
              fun s => (s.id, s.totalPoints, s.resultsCount)).Perm
            ((computeLeaderboard rows2 points).leaderboard.map
              fun s => (s.id, s.totalPoints, s.resultsCount))
          ∧ ((computeLeaderboard rows1 points).teamboard.map
                fun e => (e.id, e.totalPoints, e.driversCount)).Perm
              ((computeLeaderboard rows2 points).teamboard.map
                fun e => (e.id, e.totalPoints, e.driversCount))) := by
  have hlen : ∀ d, (rowsOfDriver d rows1).length = (rowsOfDriver d rows2).length :=
    fun d => (h.filter _).length_eq
  refine ⟨?_, ?_, ?_⟩
  · apply leaderboard_map_perm points rows1 rows2 h
    intro d
    show (d, (rowsOfDriver d rows1).length) = (d, (rowsOfDriver d rows2).length)
    rw [hlen d]
  · apply teamboard_map_perm points rows1 rows2 h
    intro t
    show (t, (teamStanding (teamAggOf points t rows1)).driversCount)
      = (t, (teamStanding (teamAggOf points t rows2)).driversCount)
    rw [driversCount_perm points h t]
  · intro hb
    constructor
    · apply leaderboard_map_perm points rows1 rows2 h
      intro d
      show (d, runningTotal points (rowsOfDriver d rows1), (rowsOfDriver d rows1).length)
        = (d, runningTotal points (rowsOfDriver d rows2), (rowsOfDriver d rows2).length)
      have hd : absPoints points (rowsOfDriver d rows1) ≤ 2 ^ 53 :=
        Nat.le_trans (absPoints_filter_le points rows1 _) hb
      have hrun : runningTotal points (rowsOfDriver d rows1)
          = runningTotal points (rowsOfDriver d rows2) :=
        runningTotal_perm points (h.filter _) hd
      rw [hlen d, hrun]
    · apply teamboard_map_perm points rows1 rows2 h
      intro t
      show (t, runningTotal points (rowsOfTeam t rows1),
          (teamStanding (teamAggOf points t rows1)).driversCount)
        = (t, runningTotal points (rowsOfTeam t rows2),
          (teamStanding (teamAggOf points t rows2)).driversCount)
      have ht : absPoints points (rowsOfTeam t rows1) ≤ 2 ^ 53 :=
        Nat.le_trans (absPoints_filter_le points rows1 _) hb
      have hrun : runningTotal points (rowsOfTeam t rows1)
          = runningTotal points (rowsOfTeam t rows2) :=
        runningTotal_perm points (h.filter _) ht
      rw [driversCount_perm points h t, hrun]

/-- C18 at the scenario of the specification and its rows in reverse order. -/
theorem C18_totals_order_independent_witness :
    scenarioRows.Perm scenarioRows.reverse
      ∧ (scenarioRows.map fun r => (pointsForPlace r.place [25, 18, 15]).natAbs).sum ≤ 2 ^ 53
      ∧ ((computeLeaderboard scenarioRows [25, 18, 15]).leaderboard.map
          fun s => (s.id, s.totalPoints, s.resultsCount)).Perm
        ((computeLeaderboard scenarioRows.reverse [25, 18, 15]).leaderboard.map
          fun s => (s.id, s.totalPoints, s.resultsCount)) :=
  have h : scenarioRows.Perm scenarioRows.reverse := (List.reverse_perm scenarioRows).symm
  have hb : (scenarioRows.map fun r => (pointsForPlace r.place [25, 18, 15]).natAbs).sum
      ≤ 2 ^ 53 := by
    decide
  ⟨h, hb,
    ((C18_totals_order_independent [25, 18, 15] scenarioRows scenarioRows.reverse h).2.2 hb).1⟩

/-- C18 fails as stated: under the table `[2^53, 1, 1]` the same three rows of
one driver total `2^53` in the order of the places 1, 2, 3 and `2^53 + 2` in the
order 2, 3, 1. -/
theorem C18_counterexample_order_dependent :
    hugeRowsForward.Perm hugeRowsRotated
      ∧ ((computeLeaderboard hugeRowsForward hugeTable).leaderboard.map
          fun s => (s.id, s.totalPoints)) = [(1, 9007199254740992)]
      ∧ ((computeLeaderboard hugeRowsRotated hugeTable).leaderboard.map
          fun s => (s.id, s.totalPoints)) = [(1, 9007199254740994)] := by
  refine ⟨?_, by decide, by decide⟩
  exact (List.perm_append_comm :
    ([sampleRow 1 1 (some 10) 1] ++ [sampleRow 2 1 (some 10) 2, sampleRow 3 1 (some 10) 3]).Perm
      ([sampleRow 2 1 (some 10) 2, sampleRow 3 1 (some 10) 3] ++ [sampleRow 1 1 (some 10) 1]))

end F1FUN
